import Mathlib

/-
  Verification development for the pyEDF repository (src/pyEDF/EDF.py).

  The EDF codec is shallowly embedded:
  * header text is modelled as `List Char`; data-record bytes as `ℕ` (values < 256);
  * Python/numpy floating-point numbers are modelled as exact rationals `ℚ`
    (float rounding is not modelled; all claims below are about values where
    the discrepancy is irrelevant, and division by zero — where numpy floats
    would give `inf`/`nan` — is excluded by hypotheses wherever it matters);
  * mutation of the session object / caller dictionaries is modelled by
    explicit state passing (functions return the updated structures);
  * any Python exception (assert failure, struct.error from `unpack`,
    ValueError from `int`/`float`/`min`, IndexError) is modelled as `none`.
-/

namespace PyEDF

/-- Header text (Python byte strings) is modelled as a list of characters. -/
abbrev Str := List Char

/-- Whitespace characters removed by Python `str.strip()`. -/
def isPySpace (c : Char) : Bool :=
  c == ' ' || c == '\t' || c == '\n' || c == '\r' || c == Char.ofNat 11 || c == Char.ofNat 12

/-- Python `s.strip()`: drop whitespace from both ends. -/
def pystrip (s : Str) : Str :=
  ((s.dropWhile isPySpace).reverse.dropWhile isPySpace).reverse

/-- EDF.py `padtrim(buf, num)`: right-pad with spaces to length `num`,
or trim from the right to length `num`. -/
def padtrim (buf : Str) (num : ℕ) : Str :=
  if buf.length ≤ num then buf ++ List.replicate (num - buf.length) ' ' else buf.take num

/-- Numeric value of a string of decimal digit characters
(folding left, as positional decimal notation). -/
def digitsVal (l : Str) : ℕ :=
  l.foldl (fun acc c => 10 * acc + (c.toNat - 48)) 0

/-- Fuel-driven decimal printer: prepends the digits of `n` to `acc`. -/
def natToStrAux : ℕ → ℕ → Str → Str
  | 0, _, acc => acc
  | _ + 1, 0, acc => acc
  | fuel + 1, n + 1, acc =>
      natToStrAux fuel ((n + 1) / 10) (Nat.digitChar ((n + 1) % 10) :: acc)

/-- Python `str` of a natural number (decimal, no sign). -/
def natToStr (n : ℕ) : Str :=
  if n = 0 then ['0'] else natToStrAux (n + 1) n []

/-- Python `str` of an integer. -/
def intToStr (z : ℤ) : Str :=
  if z < 0 then '-' :: natToStr z.natAbs else natToStr z.toNat

/-- A non-empty all-digit string parsed as a natural number, else failure. -/
def decDigits (l : Str) : Option ℕ :=
  if l ≠ [] ∧ l.all Char.isDigit then some (digitsVal l) else none

/-- Python `int(s)` on decimal text (tolerates surrounding whitespace; an
optional leading minus sign then digits; a parse failure — ValueError — is
`none`). -/
def parseIntStr (s : Str) : Option ℤ :=
  let t := pystrip s
  if t.headD ' ' = '-' then (decDigits (t.drop 1)).map (fun n : ℕ => -(n : ℤ))
  else (decDigits t).map (fun n : ℕ => (n : ℤ))

/-- Unsigned part of Python `float(s)` on decimal text: digits with an
optional fractional part (`"5"`, `"5."`, `".5"`, `"5.25"`). Special float
spellings (`nan`, `inf`, exponents) are outside the fragment exercised here. -/
def parseUFloat (t : Str) : Option ℚ :=
  let ip := t.takeWhile Char.isDigit
  let rest := t.dropWhile Char.isDigit
  if rest = [] then
    if ip = [] then none else some ((digitsVal ip : ℕ) : ℚ)
  else if rest.headD ' ' = '.' then
    let frac := rest.drop 1
    if frac.all Char.isDigit then
      if frac = [] then (if ip = [] then none else some ((digitsVal ip : ℕ) : ℚ))
      else some ((digitsVal ip : ℚ) + (digitsVal frac : ℚ) / ((10 : ℚ) ^ frac.length))
    else none
  else none

/-- Python `float(s)` on decimal text (tolerates surrounding whitespace). -/
def parseFloatStr (s : Str) : Option ℚ :=
  let t := pystrip s
  if t.headD ' ' = '-' then (parseUFloat (t.drop 1)).map (fun q => -q)
  else parseUFloat t

/-- State machine for `re.findall('(\d+)', s)`: scans the characters,
accumulating the value of the current digit run (if any). -/
def findNumsAux : Str → Option ℕ → List ℕ
  | [], none => []
  | [], some acc => [acc]
  | c :: cs, none =>
      if c.isDigit then findNumsAux cs (some (c.toNat - 48)) else findNumsAux cs none
  | c :: cs, some acc =>
      if c.isDigit then findNumsAux cs (some (10 * acc + (c.toNat - 48)))
      else acc :: findNumsAux cs none

/-- Values of the maximal digit runs of `s`, in order: `re.findall('(\d+)', s)`
with each match converted by `int`. -/
def findNums (s : Str) : List ℕ := findNumsAux s none

/-- EDF.py date/time field decode: `day, month, year = [int(x) for x in
re.findall('(\d+)', field)]` — fails unless exactly three numbers occur. -/
def parseDate (s : Str) : Option (ℕ × ℕ × ℕ) :=
  match findNums s with
  | [a, b, c] => some (a, b, c)
  | _ => none

/-- Sequence a list of optional results; any failure aborts
(a raised exception inside a Python list comprehension). -/
def seqOption {α : Type} : List (Option α) → Option (List α)
  | [] => some []
  | none :: _ => none
  | some a :: t => (seqOption t).map (fun l => a :: l)

/-- `n` bytes read after seeking to `off`: `fid.seek(off); fid.read(n)`
(short or empty near end of stream, as in Python). -/
def slice {α : Type} (s : List α) (off n : ℕ) : List α :=
  (s.drop off).take n

/-- Python `'{:0>2d}'.format(n)`: decimal text left-padded with `'0'` to
width 2. -/
def pad2 (n : ℕ) : Str :=
  if n < 10 then '0' :: natToStr n else natToStr n

/-! ## Calibration model

EDF.py computes (identically in `EDFWriter.writeHeader`, lines 191-199, and
`EDFReader.readHeader`, lines 360-369):
`calibrate = (physical_max - physical_min) / (digital_max - digital_min)`,
`offset = physical_min - calibrate * digital_min`, then per channel
`if calibrate[ch] < 0: calibrate[ch] = 1; offset[ch] = 0`.
Rational division by zero yields `0` here where numpy float division would
yield `±inf`; theorems below avoid `digital_max = digital_min` wherever the
distinction could matter. -/

/-- Scale/offset derivation for one channel, including the negative-scale
fallback. -/
def calibChan (pmin pmax dmin dmax : ℚ) : ℚ × ℚ :=
  let s := (pmax - pmin) / (dmax - dmin)
  let o := pmin - s * dmin
  if s < 0 then (1, 0) else (s, o)

/-- `deriveCalibration` over the parallel per-channel arrays: elementwise
scale/offset plus the fallback loop. -/
def calib : List ℚ → List ℚ → List ℚ → List ℚ → List (ℚ × ℚ)
  | pn :: ps, px :: qs, dn :: ds, dx :: es => calibChan pn px dn dx :: calib ps qs ds es
  | _, _, _, _ => []

/-! ## Data records

One data record is, channel by channel in header order, `n_samps[c]` signed
16-bit little-endian integers (`pack('h', x)`, line 222). Only the writer
ever produces such records: the reader-side `readBlock` (lines 375-394)
raises on every call, because `readHeader` stores `chan_info['n_samps']` as
the numpy float array built by `_read_chan_byte` (line 349) and never
converts it to int, so `fid.seek`/`fid.read` receive float arguments
(TypeError on Python 3) and `unpack('<{}h'.format(n_samps[i]), buf)` is
handed a format such as `'<4.0h'` (struct.error). An unconditionally
raising function has no successful behaviour to embed, so no reader-side
record decode is defined here. -/

/-- Two's-complement wrap of an integer into the signed 16-bit range,
modelling the numpy cast `np.asarray(raw, dtype=np.int16)`. -/
def toI16 (z : ℤ) : ℤ :=
  (z + 32768) % 65536 - 32768

/-- `pack('h', x)`: little-endian bytes of an integer after the 16-bit cast. -/
def encInt16 (z : ℤ) : List ℕ :=
  let u := (z % 65536).toNat
  [u % 256, u / 256]

/-- Truncation toward zero of a rational, modelling the C-style float-to-int
conversion performed by `np.asarray(raw, dtype=np.int16)`. -/
def ratTrunc (q : ℚ) : ℤ :=
  if 0 ≤ q then ⌊q⌋ else -⌊-q⌋

/-- Digital value written for one physical sample `v`:
`raw -= offset; raw /= calibrate` followed by the int conversion
(EDF.py lines 217-221). -/
def digitalOf (cal off v : ℚ) : ℤ :=
  ratTrunc ((v - off) / cal)

/-- The per-channel loop of `EDFWriter.writeBlock` (lines 201-225): per
channel, assert the sample count, warn (`Bool` flag) if any value exceeds the
physical range, apply `raw -= offset; raw /= calibrate`, cast to int16 and
pack. A missing channel in `data` (IndexError) or an empty channel
(`min([])` raises ValueError) is `none`. -/
def writeChans : List (ℕ × ℚ × ℚ × ℚ × ℚ) → List (List ℚ) → Option (List ℕ × Bool)
  | [], _ => some ([], false)
  | _ :: _, [] => none
  | (ns, pmin, pmax, cal, off) :: cs, raw :: ds =>
      if raw.length = ns then
        match raw with
        | [] => none
        | r0 :: rtl =>
            let mn := rtl.foldl min r0
            let mx := rtl.foldl max r0
            let w := decide (mn < pmin) || decide (mx > pmax)
            let bytes := (raw.map (fun v => encInt16 (digitalOf cal off v))).flatten
            match writeChans cs ds with
            | some (rest, wr) => some (bytes ++ rest, w || wr)
            | none => none
      else none

/-- Writer session state relevant to `writeBlock`/`close`: the per-channel
parameters, the appended file bytes and the record counter. -/
structure WSession where
  n_samps : List ℕ
  physical_min : List ℚ
  physical_max : List ℚ
  calibrate : List ℚ
  offset : List ℚ
  data_size : ℕ
  data_offset : ℕ
  n_records : ℕ
  fileBytes : List ℕ
deriving DecidableEq

/-- Zip five parallel per-channel arrays. -/
def zip5 {α β γ δ ε : Type} :
    List α → List β → List γ → List δ → List ε → List (α × β × γ × δ × ε)
  | a :: as, b :: bs, c :: cs, d :: ds, e :: es => (a, b, c, d, e) :: zip5 as bs cs ds es
  | _, _, _, _, _ => []

/-- `EDFWriter.writeBlock(data)`: append the encoded record and increment
`self.n_records`; the `Bool` is whether any `RangeWarning` was emitted. -/
def writeBlockS (s : WSession) (data : List (List ℚ)) : Option (WSession × Bool) :=
  match writeChans (zip5 s.n_samps s.physical_min s.physical_max s.calibrate s.offset) data with
  | some (bytes, w) =>
      some ({ s with fileBytes := s.fileBytes ++ bytes, n_records := s.n_records + 1 }, w)
  | none => none

/-- Characters written into the file mapped to byte values. -/
def strBytes (s : Str) : List ℕ := s.map Char.toNat

/-- `EDFWriter.close` (lines 79-107): copy the first 236 bytes, write the
final record count over the 8-byte field, copy `data_offset - 244` further
header bytes, then copy `n_records` records of `bsize` bytes each. -/
def closeFile (data_offset bsize n_records : ℕ) (file : List ℕ) : List ℕ :=
  file.take 236
    ++ strBytes (padtrim (natToStr n_records) 8)
    ++ (file.drop 244).take (data_offset - 236 - 8)
    ++ ((List.range n_records).map (fun b =>
          (file.drop (data_offset + b * bsize)).take bsize)).flatten

/-! ## Writer-side header model

The header is the pair `(meas_info, chan_info)`. Caller-optional fields are
`Option`; numeric fields are modelled as integers (EDF headers carry them as
decimal text written with Python `str`; the integer fragment is the one the
claims exercise — exact float printing is not modellable). -/

structure MeasInfo where
  subject_id : Option Str
  recording_id : Option Str
  subtype : Option Str
  day : ℕ
  month : ℕ
  year : ℕ
  hour : ℕ
  minute : ℕ
  second : ℕ
  record_length : ℤ
  nchan : ℕ
  data_size : Option ℕ
  data_offset : Option ℕ
deriving DecidableEq

structure ChanInfo where
  ch_names : List Str
  transducers : List Str
  units : List Str
  physical_min : List ℤ
  physical_max : List ℤ
  digital_min : List ℤ
  digital_max : List ℤ
  n_samps : List ℕ
deriving DecidableEq

/-- The in-place completion of `meas_info` performed by
`EDFWriter.writeHeader` (lines 117-141): default `subject_id`,
`recording_id`, `subtype`, and derive `data_size` from the subtype. -/
def fillMeas (m : MeasInfo) : MeasInfo :=
  let m1 := if m.subject_id = none then { m with subject_id := some [] } else m
  let m2 := if m1.recording_id = none then { m1 with recording_id := some [] } else m1
  let m3 := if m2.subtype = none then { m2 with subtype := some ("edf".toList) } else m2
  let ds : ℕ :=
    if m3.subtype = some ("24BIT".toList) ∨ m3.subtype = some ("bdf".toList) then 3 else 2
  { m3 with data_size := some ds }

/-- The in-place completion of `chan_info` performed by
`EDFWriter.writeHeader` (lines 128-136): default channel names (decimal
index), transducer types and units when fewer than `nchan` are present. -/
def fillChan (nchan : ℕ) (c : ChanInfo) : ChanInfo :=
  let c1 := if c.ch_names.length < nchan
    then { c with ch_names := (List.range nchan).map natToStr } else c
  let c2 := if c1.transducers.length < nchan
    then { c1 with transducers := List.replicate nchan [] } else c1
  if c2.units.length < nchan
    then { c2 with units := List.replicate nchan [] } else c2

/-- One field-major per-channel block of the channel header: `nchan` entries,
each `padtrim`-med to width `w`. -/
def chanBlock (w : ℕ) (n : ℕ) (f : ℕ → Str) : Str :=
  ((List.range n).map (fun i => padtrim (f i) w)).flatten

/-- `'{:0>2d}.{:0>2d}.{:0>2d}'.format(a, b, c)` (start date / start time). -/
def dmyStr (a b c : ℕ) : Str :=
  pad2 a ++ ('.' :: (pad2 b ++ ('.' :: pad2 c)))

/-- The sequence of writes performed by `EDFWriter.writeHeader`
(lines 143-186) on a completed header, in file order. List indexing out of
range would raise IndexError in Python; `getD` is used here and theorems
hypothesise sufficient lengths. -/
def headerChunks (m : MeasInfo) (c : ChanInfo) : List Str :=
  [padtrim ['0'] 8,
   padtrim (m.subject_id.getD []) 80,
   padtrim (m.recording_id.getD []) 80,
   padtrim (dmyStr m.day m.month m.year) 8,
   padtrim (dmyStr m.hour m.minute m.second) 8,
   padtrim (natToStr (256 + 256 * m.nchan)) 8,
   List.replicate 44 ' ',
   padtrim (intToStr (-1)) 8,
   padtrim (intToStr m.record_length) 8,
   padtrim (natToStr m.nchan) 4,
   chanBlock 16 m.nchan (fun i => c.ch_names.getD i []),
   chanBlock 80 m.nchan (fun i => c.transducers.getD i []),
   chanBlock 8 m.nchan (fun i => c.units.getD i []),
   chanBlock 8 m.nchan (fun i => intToStr (c.physical_min.getD i 0)),
   chanBlock 8 m.nchan (fun i => intToStr (c.physical_max.getD i 0)),
   chanBlock 8 m.nchan (fun i => intToStr (c.digital_min.getD i 0)),
   chanBlock 8 m.nchan (fun i => intToStr (c.digital_max.getD i 0)),
   List.replicate (80 * m.nchan) ' ',
   chanBlock 8 m.nchan (fun i => natToStr (c.n_samps.getD i 0)),
   List.replicate (32 * m.nchan) ' ']

/-- The byte stream produced by `EDFWriter.writeHeader`: the concatenation of
its writes. -/
def writeHeaderBytes (m : MeasInfo) (c : ChanInfo) : Str :=
  (headerChunks m c).flatten

/-- `EDFWriter.writeHeader`: complete the caller's structures in place,
serialize, and record `data_offset = fid.tell()`. Returns the mutated
`meas_info`, the mutated `chan_info` and the written bytes. -/
def writeHeader (m : MeasInfo) (c : ChanInfo) : MeasInfo × ChanInfo × Str :=
  let m1 := fillMeas m
  let c1 := fillChan m.nchan c
  let bytes := writeHeaderBytes m1 c1
  ({ m1 with data_offset := some bytes.length }, c1, bytes)

/-! ## Reader-side header model (`EDFReader.readHeader`, lines 252-373) -/

structure PMeasInfo where
  magic : Str
  subject_id : Str
  recording_id : Str
  day : ℕ
  month : ℕ
  year : ℕ
  hour : ℕ
  minute : ℕ
  second : ℕ
  data_offset : ℤ
  subtype : Str
  data_size : ℕ
  n_records : ℚ
  record_length : ℚ
  nchan : ℕ
  highpass : ℚ
  lowpass : Option ℚ
deriving DecidableEq

structure PChanInfo where
  ch_names : List Str
  transducers : List Str
  units : List Str
  physical_min : List ℚ
  physical_max : List ℚ
  digital_min : List ℚ
  digital_max : List ℚ
  n_samps : List ℚ
deriving DecidableEq

/-- Word characters of the regex class `\w` (ASCII fragment). -/
def isWordChar (c : Char) : Bool :=
  c.isAlphanum || c == '_'

/-- Fuel-driven scanner for `re.findall(marker + '\s+(\w+)', s)`: at each
position, the literal marker, then at least one whitespace, then a maximal
run of word characters; on failure advance one character, on success continue
after the match. -/
def scanMarker (marker : Str) : ℕ → Str → List Str
  | 0, _ => []
  | _ + 1, [] => []
  | fuel + 1, c :: cs =>
      if marker.isPrefixOf (c :: cs) then
        let rest := (c :: cs).drop marker.length
        let afterWs := rest.dropWhile isPySpace
        if rest.takeWhile isPySpace = [] then scanMarker marker fuel cs
        else
          let w := afterWs.takeWhile isWordChar
          if w = [] then scanMarker marker fuel cs
          else w :: scanMarker marker fuel (afterWs.dropWhile isWordChar)
      else scanMarker marker fuel cs

/-- All `re.findall(marker + '\s+(\w+)', s)` matches of one prefiltering
string. -/
def findFilt (marker : Str) (s : Str) : List Str :=
  scanMarker marker (s.length + 1) s

/-- Lexicographic string comparison (numpy comparison of string arrays; only
reachable through the dead ambiguity branch below). -/
def lexLtStr : Str → Str → Bool
  | [], [] => false
  | [], _ :: _ => true
  | _ :: _, [] => false
  | a :: as, b :: bs => if a < b then true else if b < a then false else lexLtStr as bs

/-- `np.max` over a string array (lexicographic). -/
def lexMax : List Str → Str
  | [] => []
  | h :: t => t.foldl (fun acc s => if lexLtStr acc s then s else acc) h

/-- `np.min` over a string array (lexicographic). -/
def lexMin : List Str → Str
  | [] => []
  | h :: t => t.foldl (fun acc s => if lexLtStr s acc then s else acc) h

/-- Highpass/lowpass extraction of `EDFReader.readHeader` (lines 316-347).
Input: the stripped per-channel prefiltering strings, all channels. Output:
`(highpass, lowpass, highpassWarned, lowpassWarned)`; `none` models a
ValueError from `float()`. The `all(...)` guards mirror Python's `all` over
the arrays of (always non-empty) regex matches. -/
def filterSettings (prefilterAll : List Str) : Option (ℚ × Option ℚ × Bool × Bool) :=
  let prefiltering := prefilterAll.dropLast
  let highpass := (prefiltering.map (findFilt ("HP:".toList))).flatten
  let lowpass := (prefiltering.map (findFilt ("LP:".toList))).flatten
  let hpRes : Option (ℚ × Bool) :=
    if highpass = [] then some (0, false)
    else if highpass.all (fun x => x ≠ []) then
      if highpass.headD [] = "NaN".toList then some (0, false)
      else if highpass.headD [] = "DC".toList then some (0, false)
      else (parseFloatStr (highpass.headD [])).map (fun q => (q, false))
    else (parseFloatStr (lexMax highpass)).map (fun q => (q, true))
  let lpRes : Option (Option ℚ × Bool) :=
    if lowpass = [] then some (none, false)
    else if lowpass.all (fun x => x ≠ []) then
      if lowpass.headD [] = "NaN".toList then some (none, false)
      else (parseFloatStr (lowpass.headD [])).map (fun q => (some q, false))
    else (parseFloatStr (lexMin lowpass)).map (fun q => (some q, true))
  match hpRes, lpRes with
  | some (hp, hpw), some (lp, lpw) => some (hp, lp, hpw, lpw)
  | _, _ => none

/-- The field-major per-channel reads: entry `ch` of the field block starting
at `base` with width `w`. -/
def readChanField (s : Str) (base w n : ℕ) : List Str :=
  (List.range n).map (fun ch => slice s (base + w * ch) w)

/-- `EDFReader.readHeader` on a byte stream `s`, with `ext` the lower-cased
filename extension (subtype fallback) and `fileSize = os.path.getsize`.
Sequential fixed-width reads are modelled as fixed-offset slices; `none`
models any parse exception; the final `assert fid.tell() == header_nbytes`
is the offset/length guard. -/
def readHeaderBytes (ext : Str) (fileSize : ℕ) (s : Str) : Option (PMeasInfo × PChanInfo) :=
  match parseDate (slice s 168 8), parseDate (slice s 176 8),
        parseIntStr (slice s 184 8), parseIntStr (slice s 236 8),
        parseFloatStr (slice s 244 8), parseIntStr (slice s 252 4) with
  | some (day, month, year), some (hour, minute, second), some header_nbytes,
      some nRecRaw, some recordLengthRaw, some nchanZ =>
    let nchan := nchanZ.toNat
    let subtype0 := (pystrip (slice s 192 44)).take 5
    let subtype := if subtype0 = [] then ext else subtype0
    let data_size : ℕ := if subtype = "24BIT".toList ∨ subtype = "bdf".toList then 3 else 2
    let names := (readChanField s 256 16 nchan).map pystrip
    let transducers := (readChanField s (256 + 16 * nchan) 80 nchan).map pystrip
    let units := (readChanField s (256 + 96 * nchan) 8 nchan).map pystrip
    match seqOption ((readChanField s (256 + 104 * nchan) 8 nchan).map parseFloatStr),
          seqOption ((readChanField s (256 + 112 * nchan) 8 nchan).map parseFloatStr),
          seqOption ((readChanField s (256 + 120 * nchan) 8 nchan).map parseFloatStr),
          seqOption ((readChanField s (256 + 128 * nchan) 8 nchan).map parseFloatStr) with
    | some pmins, some pmaxs, some dmins, some dmaxs =>
      let prefilterAll := (readChanField s (256 + 136 * nchan) 80 nchan).map pystrip
      match filterSettings prefilterAll,
            seqOption ((readChanField s (256 + 216 * nchan) 8 nchan).map parseFloatStr) with
      | some (hp, lp, _, _), some nsamps =>
        if (256 + 256 * (nchan : ℤ)) = header_nbytes ∧ 256 + 256 * nchan ≤ s.length then
          let n_records : ℚ :=
            if nRecRaw = -1 then
              ((fileSize : ℚ) - (header_nbytes : ℚ)) / (data_size : ℚ) / nsamps.sum
            else (nRecRaw : ℚ)
          let record_length : ℚ := if recordLengthRaw = 0 then 1 else recordLengthRaw
          some (⟨pystrip (slice s 0 8), pystrip (slice s 8 80), pystrip (slice s 88 80),
                 day, month, year, hour, minute, second, header_nbytes, subtype, data_size,
                 n_records, record_length, nchan, hp, lp⟩,
                ⟨names, transducers, units, pmins, pmaxs, dmins, dmaxs, nsamps⟩)
        else none
      | _, _ => none
    | _, _, _, _ => none
  | _, _, _, _, _, _ => none

/-! ## Support definitions for the theorems -/

/-- A string with no leading and no trailing Python whitespace
(`strip` leaves it unchanged, also under right-padding). -/
def noEdgeWs (s : Str) : Bool :=
  !isPySpace (s.headD '.') && !isPySpace (s.reverse.headD '.')

/-- `digitsVal` started from an accumulator. -/
def digitsValFrom (a : ℕ) (l : Str) : ℕ :=
  l.foldl (fun acc c => 10 * acc + (c.toNat - 48)) a

/-- The bytes of one data record holding the given per-channel digital
samples (the layout produced by `writeBlock`). -/
def blockBytes (dss : List (List ℤ)) : List ℕ :=
  (dss.map (fun ds => (ds.map encInt16).flatten)).flatten

/-- Total length of a list of strings. -/
def lenSum (cs : List Str) : ℕ :=
  (cs.map List.length).sum

/-- The `RangeWarning` condition of `writeBlock` for one channel:
`min(raw) < physical_min or max(raw) > physical_max`. -/
def chanWarn (pmin pmax : ℚ) : List ℚ → Bool
  | [] => false
  | r0 :: rtl => decide (rtl.foldl min r0 < pmin) || decide (rtl.foldl max r0 > pmax)

/-- Whether any channel of a record triggers a `RangeWarning`. -/
def blockWarn (chans : List (ℕ × ℚ × ℚ × ℚ × ℚ)) (data : List (List ℚ)) : Bool :=
  (List.zipWith (fun (ch : ℕ × ℚ × ℚ × ℚ × ℚ) raw => chanWarn ch.2.1 ch.2.2.1 raw)
    chans data).any id

/-! ## Concrete instances used by witnesses and counterexamples -/

/-- A complete header whose `subtype` is `'bdf'`, written to a file whose
extension is `.edf`. -/
def C3m : MeasInfo :=
  ⟨some ("sub".toList), some ("rec".toList), some ("bdf".toList),
   1, 2, 3, 4, 5, 6, 1, 1, none, none⟩

def C3c : ChanInfo :=
  ⟨["C3".toList], ["tr".toList], ["uV".toList], [-200], [200], [-2048], [2047], [4]⟩

/-- A complete one-channel header for the round-trip witness. -/
def C3wm : MeasInfo :=
  ⟨some ("patient".toList), some ("rec1".toList), some ("edf".toList),
   1, 2, 3, 4, 5, 6, 1, 1, none, none⟩

def C3wc : ChanInfo :=
  ⟨["Cz".toList], ["tr".toList], ["uV".toList], [-200], [200], [-2048], [2047], [4]⟩

/-- A one-channel header (two samples per record) for the sentinel-repair
witness. -/
def C6m : MeasInfo :=
  ⟨some [], some [], some ("edf".toList), 1, 1, 1, 0, 0, 0, 2, 1, none, none⟩

def C6c : ChanInfo :=
  ⟨["c0".toList], [[]], ["uV".toList], [0], [100], [0], [100], [2]⟩

def C6bytes : Str := writeHeaderBytes C6m C6c

/-- The header parsed back from `C6bytes` with a reported file size of 516
bytes (the serialized stream followed by one 4-byte record). -/
def C6pm : PMeasInfo :=
  ⟨['0'], [], [], 1, 1, 1, 0, 0, 0, 512, "edf".toList, 2,
   (((516 : ℕ) : ℚ) - ((512 : ℤ) : ℚ)) / ((2 : ℕ) : ℚ) / (List.sum [((2 : ℕ) : ℚ)]),
   ((2 : ℕ) : ℚ), 1, 0, none⟩

def C6pc : PChanInfo :=
  ⟨["c0".toList], [[]], ["uV".toList], [((0 : ℕ) : ℚ)], [((100 : ℕ) : ℚ)],
   [((0 : ℕ) : ℚ)], [((100 : ℕ) : ℚ)], [((2 : ℕ) : ℚ)]⟩

/-- Three channels whose prefiltering strings disagree on both filters; the
last channel is the record terminator and is excluded from parsing. -/
def C9input : List Str :=
  ["HP: 10 LP: 40".toList, "HP: 20 LP: 30".toList, "x".toList]

/-- A caller-supplied header with every optional field absent and short
per-channel text lists. -/
def C10m : MeasInfo :=
  ⟨none, none, none, 1, 1, 1, 1, 1, 1, 1, 1, none, none⟩

def C10c : ChanInfo :=
  ⟨[], [], [], [0], [10], [0], [10], [2]⟩

/-- A one-channel writer session (physical range `[0, 10]`, identity
calibration). -/
def C8s : WSession :=
  ⟨[1], [0], [10], [1], [0], 2, 512, 0, []⟩

/-! ## Properties of the text utilities -/

theorem padtrim_length (s : Str) (n : ℕ) : (padtrim s n).length = n := by
  unfold padtrim
  split <;> simp <;> omega

theorem chanBlock_length (w n : ℕ) (f : ℕ → Str) : (chanBlock w n f).length = w * n := by
  induction n with
  | zero => simp [chanBlock]
  | succ k ih =>
      unfold chanBlock at ih ⊢
      rw [List.range_succ, List.map_append, List.flatten_append]
      simp [ih, padtrim_length, Nat.mul_succ]

theorem dropWhile_replicate_ws_append (k : ℕ) (l : Str) :
    List.dropWhile isPySpace (List.replicate k ' ' ++ l) = List.dropWhile isPySpace l := by
  induction k with
  | zero => simp
  | succ m ih => simp [List.replicate_succ, List.dropWhile_cons, isPySpace, ih]

theorem dropWhile_headD_not (l : Str) (h : isPySpace (l.headD '.') = false) :
    List.dropWhile isPySpace l = l := by
  cases l with
  | nil => rfl
  | cons c t => simp only [List.headD_cons] at h; simp [List.dropWhile_cons, h]

theorem pystrip_pad {s : Str} (k : ℕ) (h : noEdgeWs s = true) :
    pystrip (s ++ List.replicate k ' ') = s := by
  unfold noEdgeWs at h
  simp only [Bool.and_eq_true, Bool.not_eq_true'] at h
  obtain ⟨h1, h2⟩ := h
  cases s with
  | nil =>
      simp only [List.nil_append, pystrip]
      rw [show List.replicate k ' ' = List.replicate k ' ' ++ [] from (List.append_nil _).symm,
        dropWhile_replicate_ws_append]
      simp
  | cons c t =>
      unfold pystrip
      rw [dropWhile_headD_not ((c :: t) ++ List.replicate k ' ') (by simpa using h1),
        List.reverse_append, List.reverse_replicate, dropWhile_replicate_ws_append,
        dropWhile_headD_not _ h2, List.reverse_reverse]

theorem pystrip_noEdge {s : Str} (h : noEdgeWs s = true) : pystrip s = s := by
  have := pystrip_pad 0 h
  simpa using this

theorem pystrip_padtrim {s : Str} (w : ℕ) (hl : s.length ≤ w) (h : noEdgeWs s = true) :
    pystrip (padtrim s w) = s := by
  unfold padtrim
  rw [if_pos hl]
  exact pystrip_pad _ h

/-! ## Decimal printing and parsing -/

theorem digitChar_isDigit {k : ℕ} (h : k < 10) : (Nat.digitChar k).isDigit = true := by
  interval_cases k <;> decide

theorem digitChar_val {k : ℕ} (h : k < 10) : (Nat.digitChar k).toNat - 48 = k := by
  interval_cases k <;> decide

theorem isDigit_not_ws {c : Char} (h : c.isDigit = true) : isPySpace c = false := by
  by_contra hne
  have his : isPySpace c = true := by revert hne; cases isPySpace c <;> simp
  simp only [isPySpace, Bool.or_eq_true, beq_iff_eq] at his
  rcases his with ((((h1 | h1) | h1) | h1) | h1) | h1 <;> subst h1 <;> simp at h

theorem digitsValFrom_append (a : ℕ) (l1 l2 : Str) :
    digitsValFrom a (l1 ++ l2) = digitsValFrom (digitsValFrom a l1) l2 := by
  simp [digitsValFrom, List.foldl_append]

theorem digitsVal_eq_from (l : Str) : digitsVal l = digitsValFrom 0 l := rfl

theorem digitsValFrom_eq (a : ℕ) (l : Str) :
    digitsValFrom a l = a * 10 ^ l.length + digitsVal l := by
  induction l generalizing a with
  | nil => simp [digitsValFrom, digitsVal]
  | cons c t ih =>
      have h1 : digitsValFrom a (c :: t) = digitsValFrom (10 * a + (c.toNat - 48)) t := rfl
      have h2 : digitsVal (c :: t) = digitsValFrom (10 * 0 + (c.toNat - 48)) t := rfl
      rw [h1, h2, ih, ih]
      simp only [List.length_cons]
      ring

theorem natToStrAux_all_digit :
    ∀ fuel n acc, acc.all Char.isDigit = true →
      (natToStrAux fuel n acc).all Char.isDigit = true := by
  intro fuel
  induction fuel with
  | zero => intro n acc h; simpa [natToStrAux] using h
  | succ f ih =>
      intro n acc h
      match n with
      | 0 => simpa [natToStrAux] using h
      | m + 1 =>
          rw [natToStrAux]
          exact ih _ _ (by simp [h, digitChar_isDigit (Nat.mod_lt _ (by omega))])

theorem natToStrAux_ne_nil :
    ∀ fuel n acc, n ≠ 0 → n < fuel → natToStrAux fuel n acc ≠ [] := by
  intro fuel
  induction fuel with
  | zero => omega
  | succ f ih =>
      intro n acc hn hlt
      match n with
      | 0 => omega
      | m + 1 =>
          rw [natToStrAux]
          rcases Nat.eq_zero_or_pos ((m + 1) / 10) with h0 | hpos
          · rw [h0]
            cases f with
            | zero => omega
            | succ f' => simp [natToStrAux]
          · exact ih _ _ (by omega) (by
              have := Nat.div_lt_self (by omega : 0 < m + 1) (by omega : 1 < 10)
              omega)

theorem natToStrAux_val :
    ∀ fuel n acc, n < fuel →
      digitsVal (natToStrAux fuel n acc) = n * 10 ^ acc.length + digitsVal acc := by
  intro fuel
  induction fuel with
  | zero => omega
  | succ f ih =>
      intro n acc hlt
      match n with
      | 0 => simp [natToStrAux]
      | m + 1 =>
          rw [natToStrAux]
          have hdiv : (m + 1) / 10 < f := by
            have := Nat.div_lt_self (by omega : 0 < m + 1) (by omega : 1 < 10)
            omega
          rw [ih _ _ hdiv]
          have hm : (m + 1) % 10 < 10 := Nat.mod_lt _ (by omega)
          have hval : digitsVal (Nat.digitChar ((m + 1) % 10) :: acc)
              = ((m + 1) % 10) * 10 ^ acc.length + digitsVal acc := by
            rw [digitsVal_eq_from]
            have : digitsValFrom 0 (Nat.digitChar ((m + 1) % 10) :: acc)
                = digitsValFrom (10 * 0 + ((Nat.digitChar ((m + 1) % 10)).toNat - 48)) acc := rfl
            rw [this, digitsValFrom_eq, digitChar_val hm, digitsVal_eq_from]
            ring
          rw [hval]
          simp only [List.length_cons]
          conv_rhs => rw [← Nat.div_add_mod (m + 1) 10]
          rw [pow_succ]
          ring

theorem natToStr_all_digit (n : ℕ) : (natToStr n).all Char.isDigit = true := by
  unfold natToStr
  split
  · decide
  · exact natToStrAux_all_digit _ _ _ (by decide)

theorem natToStr_ne_nil (n : ℕ) : natToStr n ≠ [] := by
  unfold natToStr
  split
  · simp
  · exact natToStrAux_ne_nil _ _ _ (by assumption) (by omega)

theorem digitsVal_natToStr (n : ℕ) : digitsVal (natToStr n) = n := by
  unfold natToStr
  split
  · rename_i h
    subst h
    simp [digitsVal, digitsValFrom]
  · rw [natToStrAux_val _ _ _ (by omega)]
    simp [digitsVal, digitsValFrom]

theorem decDigits_natToStr (n : ℕ) : decDigits (natToStr n) = some n := by
  unfold decDigits
  rw [if_pos ⟨natToStr_ne_nil n, natToStr_all_digit n⟩, digitsVal_natToStr]

theorem headD_mem {l : Str} (h : l ≠ []) (d : Char) : l.headD d ∈ l := by
  cases l with
  | nil => exact absurd rfl h
  | cons c t => simp

theorem noEdgeWs_of_all_digit {s : Str} (h : s.all Char.isDigit = true) : noEdgeWs s = true := by
  cases s with
  | nil => decide
  | cons c t =>
      rw [List.all_eq_true] at h
      unfold noEdgeWs
      have h1 : isPySpace ((c :: t).headD '.') = false :=
        isDigit_not_ws (h _ (headD_mem (by simp) '.'))
      have h2 : isPySpace ((c :: t).reverse.headD '.') = false := by
        have hm := headD_mem (l := (c :: t).reverse) (by simp) '.'
        rw [List.mem_reverse] at hm
        exact isDigit_not_ws (h _ hm)
      rw [h1, h2]
      rfl

theorem headD_append {a b : Str} (h : a ≠ []) (d : Char) : (a ++ b).headD d = a.headD d := by
  cases a with
  | nil => exact absurd rfl h
  | cons c t => simp

theorem noEdgeWs_neg_digits {l : Str} (hd : l.all Char.isDigit = true) (hne : l ≠ []) :
    noEdgeWs ('-' :: l) = true := by
  unfold noEdgeWs
  have h1 : isPySpace (('-' :: l).headD '.') = false := by
    rw [List.headD_cons]
    decide
  have h2 : isPySpace (('-' :: l).reverse.headD '.') = false := by
    rw [List.reverse_cons, headD_append (by simpa using hne)]
    have hm := headD_mem (l := l.reverse) (by simpa using hne) '.'
    rw [List.mem_reverse] at hm
    rw [List.all_eq_true] at hd
    exact isDigit_not_ws (hd _ hm)
  rw [h1, h2]
  rfl

theorem noEdgeWs_intToStr (z : ℤ) : noEdgeWs (intToStr z) = true := by
  unfold intToStr
  split
  · exact noEdgeWs_neg_digits (natToStr_all_digit _) (natToStr_ne_nil _)
  · exact noEdgeWs_of_all_digit (natToStr_all_digit _)

theorem digits_headD_ne_neg {l : Str} (hd : l.all Char.isDigit = true) (hne : l ≠ []) :
    l.headD ' ' ≠ '-' := by
  intro hh
  rw [List.all_eq_true] at hd
  have := hd _ (headD_mem hne ' ')
  rw [hh] at this
  exact absurd this (by decide)

theorem parseIntStr_of_digits {s l : Str} (hs : pystrip s = l)
    (hd : l.all Char.isDigit = true) (hne : l ≠ []) :
    parseIntStr s = some ((digitsVal l : ℕ) : ℤ) := by
  unfold parseIntStr
  rw [hs, if_neg (digits_headD_ne_neg hd hne)]
  unfold decDigits
  rw [if_pos ⟨hne, hd⟩]
  rfl

theorem parseIntStr_padtrim_intToStr (z : ℤ) (w : ℕ) (hl : (intToStr z).length ≤ w) :
    parseIntStr (padtrim (intToStr z) w) = some z := by
  have hstrip : pystrip (padtrim (intToStr z) w) = intToStr z :=
    pystrip_padtrim w hl (noEdgeWs_intToStr z)
  by_cases hz : z < 0
  · have hrep : intToStr z = '-' :: natToStr z.natAbs := by
      unfold intToStr
      rw [if_pos hz]
    unfold parseIntStr
    rw [hstrip, hrep]
    rw [if_pos (by simp), List.drop_one, List.tail_cons, decDigits_natToStr]
    simp only [Option.map_some']
    congr 1
    omega
  · have hrep : intToStr z = natToStr z.toNat := by
      unfold intToStr
      rw [if_neg hz]
    unfold parseIntStr
    rw [hstrip, hrep,
      if_neg (digits_headD_ne_neg (natToStr_all_digit _) (natToStr_ne_nil _)),
      decDigits_natToStr]
    simp only [Option.map_some']
    congr 1
    omega

theorem parseIntStr_padtrim_natToStr (n : ℕ) (w : ℕ) (hl : (natToStr n).length ≤ w) :
    parseIntStr (padtrim (natToStr n) w) = some (n : ℤ) := by
  have hrep : natToStr n = intToStr (n : ℤ) := by
    unfold intToStr
    rw [if_neg (by omega)]
    simp
  rw [hrep] at hl ⊢
  exact parseIntStr_padtrim_intToStr _ _ hl

theorem parseUFloat_digits {l : Str} (hd : l.all Char.isDigit = true) (hne : l ≠ []) :
    parseUFloat l = some ((digitsVal l : ℕ) : ℚ) := by
  unfold parseUFloat
  rw [List.all_eq_true] at hd
  rw [List.dropWhile_eq_nil_iff.mpr hd, if_pos rfl,
    if_neg (by rwa [List.takeWhile_eq_self_iff.mpr hd])]
  rw [List.takeWhile_eq_self_iff.mpr hd]

theorem parseFloatStr_padtrim_intToStr (z : ℤ) (w : ℕ) (hl : (intToStr z).length ≤ w) :
    parseFloatStr (padtrim (intToStr z) w) = some ((z : ℤ) : ℚ) := by
  have hstrip : pystrip (padtrim (intToStr z) w) = intToStr z :=
    pystrip_padtrim w hl (noEdgeWs_intToStr z)
  by_cases hz : z < 0
  · have hrep : intToStr z = '-' :: natToStr z.natAbs := by
      unfold intToStr
      rw [if_pos hz]
    unfold parseFloatStr
    rw [hstrip, hrep]
    rw [if_pos (by simp), List.drop_one, List.tail_cons,
      parseUFloat_digits (natToStr_all_digit _) (natToStr_ne_nil _), digitsVal_natToStr]
    simp only [Option.map_some']
    congr 1
    have h2 : (z.natAbs : ℤ) = -z := by omega
    have h1 : ((z.natAbs : ℕ) : ℚ) = ((-z : ℤ) : ℚ) := by
      rw [← h2]
      exact (Int.cast_natCast _).symm
    rw [h1]
    push_cast
    ring
  · have hrep : intToStr z = natToStr z.toNat := by
      unfold intToStr
      rw [if_neg hz]
    unfold parseFloatStr
    rw [hstrip, hrep,
      if_neg (digits_headD_ne_neg (natToStr_all_digit _) (natToStr_ne_nil _)),
      parseUFloat_digits (natToStr_all_digit _) (natToStr_ne_nil _), digitsVal_natToStr]
    congr 1
    have : ((z.toNat : ℕ) : ℚ) = ((z.toNat : ℤ) : ℚ) := by push_cast; ring
    rw [this]
    congr 1
    omega

theorem parseFloatStr_padtrim_natToStr (n : ℕ) (w : ℕ) (hl : (natToStr n).length ≤ w) :
    parseFloatStr (padtrim (natToStr n) w) = some ((n : ℕ) : ℚ) := by
  have hrep : natToStr n = intToStr (n : ℤ) := by
    unfold intToStr
    rw [if_neg (by omega)]
    simp
  rw [hrep] at hl ⊢
  rw [parseFloatStr_padtrim_intToStr _ _ hl]
  norm_cast

/-! ## Date/time fields -/

theorem pad2_facts : ∀ n < 100, (pad2 n).length = 2
    ∧ (pad2 n).all Char.isDigit = true ∧ digitsVal (pad2 n) = n := by
  decide

theorem findNumsAux_digits_some :
    ∀ (a : Str) (v : ℕ) (l : Str), a.all Char.isDigit = true →
      findNumsAux (a ++ l) (some v) = findNumsAux l (some (digitsValFrom v a)) := by
  intro a
  induction a with
  | nil => intro v l _; simp [digitsValFrom]
  | cons c t ih =>
      intro v l hd
      rw [List.all_cons, Bool.and_eq_true] at hd
      rw [List.cons_append]
      show (if c.isDigit then findNumsAux (t ++ l) (some (10 * v + (c.toNat - 48)))
        else (v :: findNumsAux (t ++ l) none)) = _
      rw [if_pos hd.1, ih _ _ hd.2]
      rfl

theorem findNumsAux_digits_none {a : Str} (l : Str)
    (hd : a.all Char.isDigit = true) (hne : a ≠ []) :
    findNumsAux (a ++ l) none = findNumsAux l (some (digitsVal a)) := by
  cases a with
  | nil => exact absurd rfl hne
  | cons c t =>
      rw [List.all_cons, Bool.and_eq_true] at hd
      rw [List.cons_append]
      show (if c.isDigit then findNumsAux (t ++ l) (some (c.toNat - 48))
        else findNumsAux (t ++ l) none) = _
      rw [if_pos hd.1, findNumsAux_digits_some _ _ _ hd.2]
      have : digitsVal (c :: t) = digitsValFrom (c.toNat - 48) t := by
        rw [digitsVal_eq_from]
        show digitsValFrom (10 * 0 + (c.toNat - 48)) t = _
        norm_num
      rw [this]

theorem findNums_dmy {a b c : ℕ} (ha : a < 100) (hb : b < 100) (hc : c < 100) :
    findNums (dmyStr a b c) = [a, b, c] := by
  obtain ⟨_, hda, hva⟩ := pad2_facts a ha
  obtain ⟨_, hdb, hvb⟩ := pad2_facts b hb
  obtain ⟨_, hdc, hvc⟩ := pad2_facts c hc
  have hne : ∀ n, pad2 n ≠ [] := by
    intro n
    unfold pad2
    split
    · simp
    · exact natToStr_ne_nil n
  unfold findNums dmyStr
  rw [findNumsAux_digits_none _ hda (hne a), hva]
  show a :: findNumsAux (pad2 b ++ '.' :: pad2 c) none = _
  rw [findNumsAux_digits_none _ hdb (hne b), hvb]
  show a :: b :: findNumsAux (pad2 c) none = _
  rw [show pad2 c = pad2 c ++ [] from (List.append_nil _).symm,
    findNumsAux_digits_none _ hdc (hne c), hvc]
  rfl

theorem dmyStr_length {a b c : ℕ} (ha : a < 100) (hb : b < 100) (hc : c < 100) :
    (dmyStr a b c).length = 8 := by
  obtain ⟨hla, _, _⟩ := pad2_facts a ha
  obtain ⟨hlb, _, _⟩ := pad2_facts b hb
  obtain ⟨hlc, _, _⟩ := pad2_facts c hc
  simp [dmyStr, hla, hlb, hlc]

theorem parseDate_padtrim_dmy {a b c : ℕ} (ha : a < 100) (hb : b < 100) (hc : c < 100) :
    parseDate (padtrim (dmyStr a b c) 8) = some (a, b, c) := by
  unfold padtrim
  rw [if_pos (by rw [dmyStr_length ha hb hc]), dmyStr_length ha hb hc]
  unfold parseDate
  rw [show (8 - 8 : ℕ) = 0 from rfl, List.replicate_zero, List.append_nil,
    findNums_dmy ha hb hc]

/-! ## Slice extraction from concatenated chunks -/

theorem slice_zero_of_length {α : Type} {x : List α} {n : ℕ} (h : x.length = n) :
    slice x 0 n = x := by
  simp [slice, ← h]

theorem slice_flatten_chunk {α : Type} :
    ∀ (cs : List (List α)) (k j len : ℕ),
      j + len ≤ (cs.getD k []).length →
      slice cs.flatten (((cs.take k).map List.length).sum + j) len
        = slice (cs.getD k []) j len := by
  intro cs
  induction cs with
  | nil =>
      intro k j len h
      simp at h
      simp [slice, List.take_of_length_le, h.2]
  | cons c0 rest ih =>
      intro k j len h
      cases k with
      | zero =>
          simp only [List.take_zero, List.map_nil, List.sum_nil, Nat.zero_add,
            List.getD_cons_zero] at h ⊢
          unfold slice
          rw [List.flatten_cons, List.drop_append_of_le_length (by omega),
            List.take_append_of_le_length (by simp; omega)]
      | succ k' =>
          simp only [List.getD_cons_succ] at h
          rw [List.take_succ_cons, List.map_cons, List.sum_cons, List.flatten_cons]
          unfold slice
          rw [Nat.add_assoc, List.drop_append]
          exact ih k' j len h

theorem slice_flatten_whole {α : Type} (cs : List (List α)) (k off len : ℕ)
    (hoff : ((cs.take k).map List.length).sum = off)
    (hlen : (cs.getD k []).length = len) :
    slice cs.flatten off len = cs.getD k [] := by
  have h := slice_flatten_chunk cs k 0 len (by omega)
  rw [Nat.add_zero, hoff] at h
  rw [h, slice_zero_of_length hlen]

theorem getD_map_range {α : Type} (g : ℕ → α) {n k : ℕ} (h : k < n) (d : α) :
    ((List.range n).map g).getD k d = g k := by
  rw [List.getD_eq_getElem?_getD, List.getElem?_map, List.getElem?_range h]
  rfl

theorem lenSum_take_map_range (g : ℕ → Str) (w n k : ℕ)
    (hw : ∀ i, (g i).length = w) (hk : k ≤ n) :
    ((((List.range n).map g).take k).map List.length).sum = w * k := by
  rw [← List.map_take, List.take_range, Nat.min_eq_left hk, List.map_map]
  have hmap : List.map (List.length ∘ g) (List.range k)
      = List.map (Function.const ℕ w) (List.range k) :=
    List.map_congr_left (fun i _ => hw i)
  rw [hmap, List.map_const, List.sum_replicate, List.length_range, smul_eq_mul]
  ring

theorem chanBlock_slice (w n ch : ℕ) (f : ℕ → Str) (h : ch < n) :
    slice (chanBlock w n f) (w * ch) w = padtrim (f ch) w := by
  have hgd : ((List.range n).map (fun i => padtrim (f i) w)).getD ch [] = padtrim (f ch) w :=
    getD_map_range _ h _
  have h0 := slice_flatten_chunk ((List.range n).map (fun i => padtrim (f i) w)) ch 0 w
    (by rw [hgd, padtrim_length]; omega)
  rw [lenSum_take_map_range _ w n ch (fun i => padtrim_length _ _) (le_of_lt h),
    Nat.add_zero] at h0
  unfold chanBlock
  rw [h0, hgd, slice_zero_of_length (padtrim_length _ _)]

theorem readChanField_flatten (cs : List Str) (k w n base : ℕ) (f : ℕ → Str)
    (hoff : ((cs.take k).map List.length).sum = base)
    (hchunk : cs.getD k [] = chanBlock w n f) :
    readChanField cs.flatten base w n = (List.range n).map (fun ch => padtrim (f ch) w) := by
  unfold readChanField
  refine List.map_congr_left ?_
  intro ch hch
  rw [List.mem_range] at hch
  have h := slice_flatten_chunk cs k (w * ch) w (by
    rw [hchunk, chanBlock_length]
    have : w * ch + w = w * (ch + 1) := by ring
    rw [this]
    exact Nat.mul_le_mul_left _ hch)
  rw [hoff] at h
  rw [h, hchunk, chanBlock_slice _ _ _ _ hch]

theorem replicate_spaces_chanBlock (w n : ℕ) :
    List.replicate (w * n) ' ' = chanBlock w n (fun _ => []) := by
  induction n with
  | zero => simp [chanBlock]
  | succ k ih =>
      unfold chanBlock at ih ⊢
      rw [List.range_succ, List.map_append, List.flatten_append]
      have hp : padtrim ([] : Str) w = List.replicate w ' ' := by
        unfold padtrim
        simp
      rw [Nat.mul_succ, List.replicate_add, ih]
      simp [hp]

theorem whb_length (m : MeasInfo) (c : ChanInfo) :
    (writeHeaderBytes m c).length = 256 + 256 * m.nchan := by
  simp [writeHeaderBytes, headerChunks, padtrim_length, chanBlock_length]
  ring

/-! ## Field extraction from the serialized header -/

theorem whb_slice_magic (m : MeasInfo) (c : ChanInfo) :
    slice (writeHeaderBytes m c) 0 8 = padtrim ['0'] 8 := by
  have h := slice_flatten_whole (headerChunks m c) 0 0 8
    (by simp [headerChunks]) (by simp [headerChunks, padtrim_length])
  rw [writeHeaderBytes, h]
  simp [headerChunks]

theorem whb_slice_subject (m : MeasInfo) (c : ChanInfo) :
    slice (writeHeaderBytes m c) 8 80 = padtrim (m.subject_id.getD []) 80 := by
  have h := slice_flatten_whole (headerChunks m c) 1 8 80
    (by simp [headerChunks, padtrim_length]) (by simp [headerChunks, padtrim_length])
  rw [writeHeaderBytes, h]
  simp [headerChunks]

theorem whb_slice_recording (m : MeasInfo) (c : ChanInfo) :
    slice (writeHeaderBytes m c) 88 80 = padtrim (m.recording_id.getD []) 80 := by
  have h := slice_flatten_whole (headerChunks m c) 2 88 80
    (by simp [headerChunks, padtrim_length]) (by simp [headerChunks, padtrim_length])
  rw [writeHeaderBytes, h]
  simp [headerChunks]

theorem whb_slice_date (m : MeasInfo) (c : ChanInfo) :
    slice (writeHeaderBytes m c) 168 8 = padtrim (dmyStr m.day m.month m.year) 8 := by
  have h := slice_flatten_whole (headerChunks m c) 3 168 8
    (by simp [headerChunks, padtrim_length]) (by simp [headerChunks, padtrim_length])
  rw [writeHeaderBytes, h]
  simp [headerChunks]

theorem whb_slice_time (m : MeasInfo) (c : ChanInfo) :
    slice (writeHeaderBytes m c) 176 8 = padtrim (dmyStr m.hour m.minute m.second) 8 := by
  have h := slice_flatten_whole (headerChunks m c) 4 176 8
    (by simp [headerChunks, padtrim_length]) (by simp [headerChunks, padtrim_length])
  rw [writeHeaderBytes, h]
  simp [headerChunks]

theorem whb_slice_hdrsize (m : MeasInfo) (c : ChanInfo) :
    slice (writeHeaderBytes m c) 184 8 = padtrim (natToStr (256 + 256 * m.nchan)) 8 := by
  have h := slice_flatten_whole (headerChunks m c) 5 184 8
    (by simp [headerChunks, padtrim_length]) (by simp [headerChunks, padtrim_length])
  rw [writeHeaderBytes, h]
  simp [headerChunks]

theorem whb_slice_reserved (m : MeasInfo) (c : ChanInfo) :
    slice (writeHeaderBytes m c) 192 44 = List.replicate 44 ' ' := by
  have h := slice_flatten_whole (headerChunks m c) 6 192 44
    (by simp [headerChunks, padtrim_length]) (by simp [headerChunks])
  rw [writeHeaderBytes, h]
  simp [headerChunks]

theorem whb_slice_nrec (m : MeasInfo) (c : ChanInfo) :
    slice (writeHeaderBytes m c) 236 8 = padtrim (intToStr (-1)) 8 := by
  have h := slice_flatten_whole (headerChunks m c) 7 236 8
    (by simp [headerChunks, padtrim_length]) (by simp [headerChunks, padtrim_length])
  rw [writeHeaderBytes, h]
  simp [headerChunks]

theorem whb_slice_reclen (m : MeasInfo) (c : ChanInfo) :
    slice (writeHeaderBytes m c) 244 8 = padtrim (intToStr m.record_length) 8 := by
  have h := slice_flatten_whole (headerChunks m c) 8 244 8
    (by simp [headerChunks, padtrim_length]) (by simp [headerChunks, padtrim_length])
  rw [writeHeaderBytes, h]
  simp [headerChunks]

theorem whb_slice_nchan (m : MeasInfo) (c : ChanInfo) :
    slice (writeHeaderBytes m c) 252 4 = padtrim (natToStr m.nchan) 4 := by
  have h := slice_flatten_whole (headerChunks m c) 9 252 4
    (by simp [headerChunks, padtrim_length]) (by simp [headerChunks, padtrim_length])
  rw [writeHeaderBytes, h]
  simp [headerChunks]

theorem whb_chan_names (m : MeasInfo) (c : ChanInfo) :
    readChanField (writeHeaderBytes m c) 256 16 m.nchan
      = (List.range m.nchan).map (fun ch => padtrim (c.ch_names.getD ch []) 16) := by
  refine readChanField_flatten (headerChunks m c) 10 16 m.nchan 256 _ ?_ ?_
  · simp [headerChunks, padtrim_length]
  · simp [headerChunks]

theorem whb_chan_transducers (m : MeasInfo) (c : ChanInfo) :
    readChanField (writeHeaderBytes m c) (256 + 16 * m.nchan) 80 m.nchan
      = (List.range m.nchan).map (fun ch => padtrim (c.transducers.getD ch []) 80) := by
  refine readChanField_flatten (headerChunks m c) 11 80 m.nchan _ _ ?_ ?_
  · simp [headerChunks, padtrim_length, chanBlock_length]
    omega
  · simp [headerChunks]

theorem whb_chan_units (m : MeasInfo) (c : ChanInfo) :
    readChanField (writeHeaderBytes m c) (256 + 96 * m.nchan) 8 m.nchan
      = (List.range m.nchan).map (fun ch => padtrim (c.units.getD ch []) 8) := by
  refine readChanField_flatten (headerChunks m c) 12 8 m.nchan _ _ ?_ ?_
  · simp [headerChunks, padtrim_length, chanBlock_length]
    ring
  · simp [headerChunks]

theorem whb_chan_pmin (m : MeasInfo) (c : ChanInfo) :
    readChanField (writeHeaderBytes m c) (256 + 104 * m.nchan) 8 m.nchan
      = (List.range m.nchan).map (fun ch => padtrim (intToStr (c.physical_min.getD ch 0)) 8) := by
  refine readChanField_flatten (headerChunks m c) 13 8 m.nchan _ _ ?_ ?_
  · simp [headerChunks, padtrim_length, chanBlock_length]
    ring
  · simp [headerChunks]

theorem whb_chan_pmax (m : MeasInfo) (c : ChanInfo) :
    readChanField (writeHeaderBytes m c) (256 + 112 * m.nchan) 8 m.nchan
      = (List.range m.nchan).map (fun ch => padtrim (intToStr (c.physical_max.getD ch 0)) 8) := by
  refine readChanField_flatten (headerChunks m c) 14 8 m.nchan _ _ ?_ ?_
  · simp [headerChunks, padtrim_length, chanBlock_length]
    ring
  · simp [headerChunks]

theorem whb_chan_dmin (m : MeasInfo) (c : ChanInfo) :
    readChanField (writeHeaderBytes m c) (256 + 120 * m.nchan) 8 m.nchan
      = (List.range m.nchan).map (fun ch => padtrim (intToStr (c.digital_min.getD ch 0)) 8) := by
  refine readChanField_flatten (headerChunks m c) 15 8 m.nchan _ _ ?_ ?_
  · simp [headerChunks, padtrim_length, chanBlock_length]
    ring
  · simp [headerChunks]

theorem whb_chan_dmax (m : MeasInfo) (c : ChanInfo) :
    readChanField (writeHeaderBytes m c) (256 + 128 * m.nchan) 8 m.nchan
      = (List.range m.nchan).map (fun ch => padtrim (intToStr (c.digital_max.getD ch 0)) 8) := by
  refine readChanField_flatten (headerChunks m c) 16 8 m.nchan _ _ ?_ ?_
  · simp [headerChunks, padtrim_length, chanBlock_length]
    ring
  · simp [headerChunks]

theorem whb_chan_prefilter (m : MeasInfo) (c : ChanInfo) :
    readChanField (writeHeaderBytes m c) (256 + 136 * m.nchan) 80 m.nchan
      = (List.range m.nchan).map (fun _ => padtrim [] 80) := by
  refine readChanField_flatten (headerChunks m c) 17 80 m.nchan _ (fun _ => []) ?_ ?_
  · simp [headerChunks, padtrim_length, chanBlock_length]
    ring
  · simp [headerChunks]
    exact replicate_spaces_chanBlock 80 m.nchan

theorem whb_chan_nsamps (m : MeasInfo) (c : ChanInfo) :
    readChanField (writeHeaderBytes m c) (256 + 216 * m.nchan) 8 m.nchan
      = (List.range m.nchan).map (fun ch => padtrim (natToStr (c.n_samps.getD ch 0)) 8) := by
  refine readChanField_flatten (headerChunks m c) 18 8 m.nchan _ _ ?_ ?_
  · simp [headerChunks, padtrim_length, chanBlock_length]
    ring
  · simp [headerChunks]

/-! ## Assembling the parsed header -/

theorem pystrip_blank (k : ℕ) : pystrip (List.replicate k ' ') = [] := by
  have h := pystrip_pad (s := []) k (by decide)
  simpa using h

theorem pystrip_padtrim_nil (w : ℕ) : pystrip (padtrim [] w) = [] :=
  pystrip_padtrim w (by simp) (by decide)

theorem getD_mem {α : Type} {l : List α} {i : ℕ} (h : i < l.length) (d : α) :
    l.getD i d ∈ l := by
  rw [List.getD_eq_getElem?_getD, List.getElem?_eq_getElem h]
  exact List.getElem_mem h

theorem map_getD_range_g {α β : Type} (l : List α) (d : α) (g : α → β) :
    (List.range l.length).map (fun i => g (l.getD i d)) = l.map g := by
  induction l with
  | nil => simp
  | cons a t ih =>
      rw [List.length_cons, List.range_succ_eq_map, List.map_cons, List.map_map,
        List.map_cons]
      simp only [List.getD_cons_zero, Function.comp_def, List.getD_cons_succ]
      rw [ih]

theorem seqOption_map_some {α β : Type} (l : List β) (F : β → Option α) (g : β → α)
    (h : ∀ x ∈ l, F x = some (g x)) : seqOption (l.map F) = some (l.map g) := by
  induction l with
  | nil => rfl
  | cons a t ih =>
      rw [List.map_cons, List.map_cons, h a (by simp)]
      show (seqOption (t.map F)).map _ = _
      rw [ih (fun x hx => h x (by simp [hx]))]
      rfl

theorem findFilt_nil (marker : Str) : findFilt marker [] = [] := rfl

theorem flatten_replicate_nil {α : Type} (k : ℕ) :
    (List.replicate k ([] : List α)).flatten = [] := by
  induction k with
  | zero => rfl
  | succ n ih => rw [List.replicate_succ, List.flatten_cons, ih]; rfl

theorem filterSettings_blank (k : ℕ) :
    filterSettings (List.replicate k []) = some (0, none, false, false) := by
  unfold filterSettings
  rw [List.dropLast_replicate]
  simp [List.map_replicate, findFilt_nil, flatten_replicate_nil]

theorem writeHeader_bytes_eq (m : MeasInfo) (c : ChanInfo) :
    (writeHeader m c).2.2 = writeHeaderBytes (fillMeas m) (fillChan m.nchan c) := rfl

set_option maxHeartbeats 2000000

set_option maxRecDepth 40000

/-- C3: parse-of-serialize for the header codec. On a completed header whose
fields fit their widths (no truncation, no stripped edge whitespace, a
nonzero record length), `readHeader` recovers every field from the bytes
written by `writeHeader` — except `subtype` (never serialized; re-derived
from the filename extension `ext`), `n_records` (written as the `-1`
sentinel and recomputed from file size: `0` for a header-only file), the
`magic` field (a constant `'0'`), and `highpass`/`lowpass` (from the blank
prefiltering area). -/
theorem readHeader_writeHeader (m : MeasInfo) (c : ChanInfo) (ext : Str)
    (hsid : (m.subject_id.getD []).length ≤ 80)
    (hsidw : noEdgeWs (m.subject_id.getD []) = true)
    (hrid : (m.recording_id.getD []).length ≤ 80)
    (hridw : noEdgeWs (m.recording_id.getD []) = true)
    (hday : m.day < 100) (hmon : m.month < 100) (hyear : m.year < 100)
    (hhour : m.hour < 100) (hmin : m.minute < 100) (hsec : m.second < 100)
    (hhdrlen : (natToStr (256 + 256 * m.nchan)).length ≤ 8)
    (hrlen : (intToStr m.record_length).length ≤ 8) (hrl0 : m.record_length ≠ 0)
    (hnchlen : (natToStr m.nchan).length ≤ 4)
    (hnames : c.ch_names.length = m.nchan)
    (hnamesB : ∀ x ∈ c.ch_names, x.length ≤ 16 ∧ noEdgeWs x = true)
    (htrans : c.transducers.length = m.nchan)
    (htransB : ∀ x ∈ c.transducers, x.length ≤ 80 ∧ noEdgeWs x = true)
    (hunits : c.units.length = m.nchan)
    (hunitsB : ∀ x ∈ c.units, x.length ≤ 8 ∧ noEdgeWs x = true)
    (hpmin : c.physical_min.length = m.nchan)
    (hpminB : ∀ x ∈ c.physical_min, (intToStr x).length ≤ 8)
    (hpmax : c.physical_max.length = m.nchan)
    (hpmaxB : ∀ x ∈ c.physical_max, (intToStr x).length ≤ 8)
    (hdmin : c.digital_min.length = m.nchan)
    (hdminB : ∀ x ∈ c.digital_min, (intToStr x).length ≤ 8)
    (hdmax : c.digital_max.length = m.nchan)
    (hdmaxB : ∀ x ∈ c.digital_max, (intToStr x).length ≤ 8)
    (hns : c.n_samps.length = m.nchan)
    (hnsB : ∀ x ∈ c.n_samps, (natToStr x).length ≤ 8) :
    readHeaderBytes ext (256 + 256 * m.nchan) (writeHeaderBytes m c)
      = some
        (⟨['0'], m.subject_id.getD [], m.recording_id.getD [],
          m.day, m.month, m.year, m.hour, m.minute, m.second,
          ((256 + 256 * m.nchan : ℕ) : ℤ), ext,
          (if ext = "24BIT".toList ∨ ext = "bdf".toList then 3 else 2),
          0, ((m.record_length : ℤ) : ℚ), m.nchan, 0, none⟩,
         ⟨c.ch_names, c.transducers, c.units,
          c.physical_min.map (fun z => ((z : ℤ) : ℚ)),
          c.physical_max.map (fun z => ((z : ℤ) : ℚ)),
          c.digital_min.map (fun z => ((z : ℤ) : ℚ)),
          c.digital_max.map (fun z => ((z : ℤ) : ℚ)),
          c.n_samps.map (fun n => ((n : ℕ) : ℚ))⟩) := by
  have hdate : parseDate (slice (writeHeaderBytes m c) 168 8)
      = some (m.day, m.month, m.year) := by
    rw [whb_slice_date]
    exact parseDate_padtrim_dmy hday hmon hyear
  have htimeP : parseDate (slice (writeHeaderBytes m c) 176 8)
      = some (m.hour, m.minute, m.second) := by
    rw [whb_slice_time]
    exact parseDate_padtrim_dmy hhour hmin hsec
  have hhdrp : parseIntStr (slice (writeHeaderBytes m c) 184 8)
      = some ((256 + 256 * m.nchan : ℕ) : ℤ) := by
    rw [whb_slice_hdrsize]
    exact parseIntStr_padtrim_natToStr _ _ hhdrlen
  have hnrecp : parseIntStr (slice (writeHeaderBytes m c) 236 8) = some (-1) := by
    rw [whb_slice_nrec]
    exact parseIntStr_padtrim_intToStr _ _ (by decide)
  have hreclenp : parseFloatStr (slice (writeHeaderBytes m c) 244 8)
      = some ((m.record_length : ℤ) : ℚ) := by
    rw [whb_slice_reclen]
    exact parseFloatStr_padtrim_intToStr _ _ hrlen
  have hnchanp : parseIntStr (slice (writeHeaderBytes m c) 252 4)
      = some ((m.nchan : ℕ) : ℤ) := by
    rw [whb_slice_nchan]
    exact parseIntStr_padtrim_natToStr _ _ hnchlen
  have hmagicp : pystrip (slice (writeHeaderBytes m c) 0 8) = ['0'] := by
    rw [whb_slice_magic]
    exact pystrip_padtrim _ (by decide) (by decide)
  have hsidp : pystrip (slice (writeHeaderBytes m c) 8 80) = m.subject_id.getD [] := by
    rw [whb_slice_subject]
    exact pystrip_padtrim _ hsid hsidw
  have hridp : pystrip (slice (writeHeaderBytes m c) 88 80) = m.recording_id.getD [] := by
    rw [whb_slice_recording]
    exact pystrip_padtrim _ hrid hridw
  have hsub0 : pystrip (slice (writeHeaderBytes m c) 192 44) = [] := by
    rw [whb_slice_reserved]
    exact pystrip_blank 44
  have hnamesP : (readChanField (writeHeaderBytes m c) 256 16 m.nchan).map pystrip
      = c.ch_names := by
    rw [whb_chan_names, List.map_map]
    have hcg : ∀ i ∈ List.range m.nchan,
        (pystrip ∘ fun ch => padtrim (c.ch_names.getD ch []) 16) i
          = (fun j => id (c.ch_names.getD j [])) i := by
      intro i hi
      rw [List.mem_range] at hi
      have hmem := getD_mem (l := c.ch_names) (i := i) (by rw [hnames]; exact hi) []
      obtain ⟨h1, h2⟩ := hnamesB _ hmem
      simp only [Function.comp_apply, id]
      exact pystrip_padtrim 16 h1 h2
    rw [List.map_congr_left hcg, ← hnames, map_getD_range_g c.ch_names [] id, List.map_id]
  have htransP : (readChanField (writeHeaderBytes m c) (256 + 16 * m.nchan) 80 m.nchan).map
      pystrip = c.transducers := by
    rw [whb_chan_transducers, List.map_map]
    have hcg : ∀ i ∈ List.range m.nchan,
        (pystrip ∘ fun ch => padtrim (c.transducers.getD ch []) 80) i
          = (fun j => id (c.transducers.getD j [])) i := by
      intro i hi
      rw [List.mem_range] at hi
      have hmem := getD_mem (l := c.transducers) (i := i) (by rw [htrans]; exact hi) []
      obtain ⟨h1, h2⟩ := htransB _ hmem
      simp only [Function.comp_apply, id]
      exact pystrip_padtrim 80 h1 h2
    rw [List.map_congr_left hcg, ← htrans, map_getD_range_g c.transducers [] id, List.map_id]
  have hunitsP : (readChanField (writeHeaderBytes m c) (256 + 96 * m.nchan) 8 m.nchan).map
      pystrip = c.units := by
    rw [whb_chan_units, List.map_map]
    have hcg : ∀ i ∈ List.range m.nchan,
        (pystrip ∘ fun ch => padtrim (c.units.getD ch []) 8) i
          = (fun j => id (c.units.getD j [])) i := by
      intro i hi
      rw [List.mem_range] at hi
      have hmem := getD_mem (l := c.units) (i := i) (by rw [hunits]; exact hi) []
      obtain ⟨h1, h2⟩ := hunitsB _ hmem
      simp only [Function.comp_apply, id]
      exact pystrip_padtrim 8 h1 h2
    rw [List.map_congr_left hcg, ← hunits, map_getD_range_g c.units [] id, List.map_id]
  have hpminP : seqOption (((readChanField (writeHeaderBytes m c) (256 + 104 * m.nchan) 8
      m.nchan)).map parseFloatStr)
      = some (c.physical_min.map (fun z => ((z : ℤ) : ℚ))) := by
    rw [whb_chan_pmin, List.map_map]
    rw [seqOption_map_some (List.range m.nchan)
      (parseFloatStr ∘ fun ch => padtrim (intToStr (c.physical_min.getD ch 0)) 8)
      (fun ch => ((c.physical_min.getD ch 0 : ℤ) : ℚ)) (by
        intro i hi
        rw [List.mem_range] at hi
        exact parseFloatStr_padtrim_intToStr _ _
          (hpminB _ (getD_mem (by rw [hpmin]; exact hi) 0)))]
    rw [← hpmin, map_getD_range_g c.physical_min 0 (fun z => ((z : ℤ) : ℚ))]
  have hpmaxP : seqOption (((readChanField (writeHeaderBytes m c) (256 + 112 * m.nchan) 8
      m.nchan)).map parseFloatStr)
      = some (c.physical_max.map (fun z => ((z : ℤ) : ℚ))) := by
    rw [whb_chan_pmax, List.map_map]
    rw [seqOption_map_some (List.range m.nchan)
      (parseFloatStr ∘ fun ch => padtrim (intToStr (c.physical_max.getD ch 0)) 8)
      (fun ch => ((c.physical_max.getD ch 0 : ℤ) : ℚ)) (by
        intro i hi
        rw [List.mem_range] at hi
        exact parseFloatStr_padtrim_intToStr _ _
          (hpmaxB _ (getD_mem (by rw [hpmax]; exact hi) 0)))]
    rw [← hpmax, map_getD_range_g c.physical_max 0 (fun z => ((z : ℤ) : ℚ))]
  have hdminP : seqOption (((readChanField (writeHeaderBytes m c) (256 + 120 * m.nchan) 8
      m.nchan)).map parseFloatStr)
      = some (c.digital_min.map (fun z => ((z : ℤ) : ℚ))) := by
    rw [whb_chan_dmin, List.map_map]
    rw [seqOption_map_some (List.range m.nchan)
      (parseFloatStr ∘ fun ch => padtrim (intToStr (c.digital_min.getD ch 0)) 8)
      (fun ch => ((c.digital_min.getD ch 0 : ℤ) : ℚ)) (by
        intro i hi
        rw [List.mem_range] at hi
        exact parseFloatStr_padtrim_intToStr _ _
          (hdminB _ (getD_mem (by rw [hdmin]; exact hi) 0)))]
    rw [← hdmin, map_getD_range_g c.digital_min 0 (fun z => ((z : ℤ) : ℚ))]
  have hdmaxP : seqOption (((readChanField (writeHeaderBytes m c) (256 + 128 * m.nchan) 8
      m.nchan)).map parseFloatStr)
      = some (c.digital_max.map (fun z => ((z : ℤ) : ℚ))) := by
    rw [whb_chan_dmax, List.map_map]
    rw [seqOption_map_some (List.range m.nchan)
      (parseFloatStr ∘ fun ch => padtrim (intToStr (c.digital_max.getD ch 0)) 8)
      (fun ch => ((c.digital_max.getD ch 0 : ℤ) : ℚ)) (by
        intro i hi
        rw [List.mem_range] at hi
        exact parseFloatStr_padtrim_intToStr _ _
          (hdmaxB _ (getD_mem (by rw [hdmax]; exact hi) 0)))]
    rw [← hdmax, map_getD_range_g c.digital_max 0 (fun z => ((z : ℤ) : ℚ))]
  have hnsP : seqOption (((readChanField (writeHeaderBytes m c) (256 + 216 * m.nchan) 8
      m.nchan)).map parseFloatStr)
      = some (c.n_samps.map (fun n => ((n : ℕ) : ℚ))) := by
    rw [whb_chan_nsamps, List.map_map]
    rw [seqOption_map_some (List.range m.nchan)
      (parseFloatStr ∘ fun ch => padtrim (natToStr (c.n_samps.getD ch 0)) 8)
      (fun ch => ((c.n_samps.getD ch 0 : ℕ) : ℚ)) (by
        intro i hi
        rw [List.mem_range] at hi
        exact parseFloatStr_padtrim_natToStr _ _
          (hnsB _ (getD_mem (by rw [hns]; exact hi) 0)))]
    rw [← hns, map_getD_range_g c.n_samps 0 (fun n => ((n : ℕ) : ℚ))]
  have hprefP : (readChanField (writeHeaderBytes m c) (256 + 136 * m.nchan) 80 m.nchan).map
      pystrip = List.replicate m.nchan [] := by
    rw [whb_chan_prefilter, List.map_map]
    have hfn : (pystrip ∘ fun _ : ℕ => padtrim [] 80) = Function.const ℕ ([] : Str) := by
      funext i
      simp only [Function.comp_apply, Function.const_apply]
      exact pystrip_padtrim_nil 80
    rw [hfn, List.map_const, List.length_range]
  have hrlq : ((m.record_length : ℤ) : ℚ) ≠ 0 := by
    simpa using hrl0
  have hlen : (writeHeaderBytes m c).length = 256 + 256 * m.nchan := whb_length m c
  unfold readHeaderBytes
  simp only [hdate, htimeP, hhdrp, hnrecp, hreclenp, hnchanp, Int.toNat_natCast,
    hmagicp, hsidp, hridp, hsub0, hnamesP, htransP, hunitsP, hpminP, hpmaxP, hdminP,
    hdmaxP, hnsP, hprefP, filterSettings_blank, hlen, List.take_nil]
  rw [if_pos (by push_cast; omega)]
  simp [hrlq, Int.cast_natCast]

/-! ## Data-record encoding and decoding -/

theorem encInt16_eq (z : ℤ) :
    encInt16 z = [(z % 65536).toNat % 256, (z % 65536).toNat / 256] := rfl

theorem encInt16_length (z : ℤ) : (encInt16 z).length = 2 := rfl

theorem toI16_id {z : ℤ} (h1 : -32768 ≤ z) (h2 : z ≤ 32767) : toI16 z = z := by
  unfold toI16
  omega

theorem blockBytes_nil : blockBytes [] = [] := rfl

theorem blockBytes_cons (ds : List ℤ) (dss : List (List ℤ)) :
    blockBytes (ds :: dss) = (ds.map encInt16).flatten ++ blockBytes dss := by
  unfold blockBytes
  rw [List.map_cons, List.flatten_cons]

theorem enc_flatten_length (ds : List ℤ) : ((ds.map encInt16).flatten).length = 2 * ds.length := by
  induction ds with
  | nil => rfl
  | cons d t ih => simp [List.flatten_cons, ih, encInt16_length]; ring

/-! ## Quantization -/

theorem ratTrunc_err (q : ℚ) : |q - ((ratTrunc q : ℤ) : ℚ)| < 1 := by
  unfold ratTrunc
  split
  · have h1 := Int.floor_le q
    have h2 := Int.sub_one_lt_floor q
    rw [abs_lt]
    constructor <;> linarith
  · have h1 := Int.floor_le (-q)
    have h2 := Int.sub_one_lt_floor (-q)
    rw [abs_lt]
    push_cast
    constructor <;> linarith

theorem ratTrunc_range {lo hi q : ℚ} (h1 : lo ≤ q) (h2 : q ≤ hi)
    (hlo : -32768 ≤ lo) (hhi : hi ≤ 32767) :
    -32768 ≤ ratTrunc q ∧ ratTrunc q ≤ 32767 := by
  unfold ratTrunc
  split
  · rename_i hq
    have hnn : (0 : ℤ) ≤ ⌊q⌋ := Int.floor_nonneg.mpr hq
    have hup : ⌊q⌋ ≤ 32767 := by
      have h := Int.floor_le_floor (α := ℚ) (by linarith : q ≤ (32767 : ℚ))
      have hc : ⌊(32767 : ℚ)⌋ = 32767 := by norm_num
      omega
    omega
  · rename_i hq
    push_neg at hq
    have hnn : (0 : ℤ) ≤ ⌊-q⌋ := Int.floor_nonneg.mpr (by linarith)
    have hup : ⌊-q⌋ ≤ 32768 := by
      have h := Int.floor_le_floor (α := ℚ) (by linarith : -q ≤ (32768 : ℚ))
      have hc : ⌊(32768 : ℚ)⌋ = 32768 := by norm_num
      omega
    omega

theorem quantization_bound {pmin pmax dmin dmax v : ℚ}
    (hd : dmin < dmax) (hp : pmin < pmax)
    (hdlo : -32768 ≤ dmin) (hdhi : dmax ≤ 32767)
    (hv1 : pmin ≤ v) (hv2 : v ≤ pmax) :
    0 < (pmax - pmin) / (dmax - dmin) ∧
    |((pmax - pmin) / (dmax - dmin))
        * ((toI16 (digitalOf ((pmax - pmin) / (dmax - dmin))
            (pmin - ((pmax - pmin) / (dmax - dmin)) * dmin) v) : ℤ) : ℚ)
      + (pmin - ((pmax - pmin) / (dmax - dmin)) * dmin) - v|
      < (pmax - pmin) / (dmax - dmin) := by
  set scale := (pmax - pmin) / (dmax - dmin) with hscale
  have hspos : 0 < scale := div_pos (by linarith) (by linarith)
  refine ⟨hspos, ?_⟩
  set off := pmin - scale * dmin with hoffdef
  set d : ℚ := (v - off) / scale with hdq
  have hsc : (dmax - dmin) * scale = pmax - pmin := by
    rw [hscale, mul_comm, div_mul_eq_mul_div, mul_div_assoc,
      div_self (ne_of_gt (by linarith : (0 : ℚ) < dmax - dmin)), mul_one]
  have hd1 : dmin ≤ d := by
    rw [hdq, le_div_iff₀ hspos, hoffdef]
    nlinarith
  have hd2 : d ≤ dmax := by
    rw [hdq, div_le_iff₀ hspos, hoffdef]
    nlinarith
  have htr := ratTrunc_range hd1 hd2 hdlo hdhi
  have hdig : digitalOf scale off v = ratTrunc d := by
    unfold digitalOf
    rw [← hdq]
  have hid : toI16 (digitalOf scale off v) = ratTrunc d := by
    rw [hdig]
    exact toI16_id htr.1 htr.2
  rw [hid]
  have hvd : v = scale * d + off := by
    rw [hdq]
    field_simp
  have hdiff : scale * ((ratTrunc d : ℤ) : ℚ) + off - v
      = scale * (((ratTrunc d : ℤ) : ℚ) - d) := by
    conv_lhs => rw [hvd]
    ring
  rw [hdiff, abs_mul, abs_of_pos hspos]
  have herr : |((ratTrunc d : ℤ) : ℚ) - d| < 1 := by
    rw [abs_sub_comm]
    exact ratTrunc_err d
  calc scale * |((ratTrunc d : ℤ) : ℚ) - d| < scale * 1 :=
        mul_lt_mul_of_pos_left herr hspos
    _ = scale := mul_one _

/-! ## The writeBlock loop -/

theorem foldl_min_le_init (l : List ℚ) (a : ℚ) : l.foldl min a ≤ a := by
  induction l generalizing a with
  | nil => exact le_refl a
  | cons c t ih => exact le_trans (ih (min a c)) (min_le_left a c)

theorem foldl_min_le_mem (l : List ℚ) (a v : ℚ) (h : v ∈ a :: l) : l.foldl min a ≤ v := by
  induction l generalizing a with
  | nil =>
      rcases List.mem_cons.mp h with h1 | h1
      · subst h1
        exact le_refl _
      · simp at h1
  | cons c t ih =>
      rcases List.mem_cons.mp h with h1 | h1
      · subst h1
        show t.foldl min (min v c) ≤ v
        exact le_trans (foldl_min_le_init t (min v c)) (min_le_left v c)
      · rcases List.mem_cons.mp h1 with h2 | h2
        · subst h2
          show t.foldl min (min a v) ≤ v
          exact le_trans (foldl_min_le_init t (min a v)) (min_le_right a v)
        · exact ih (min a c) (List.mem_cons_of_mem _ h2)

theorem init_le_foldl_max (l : List ℚ) (a : ℚ) : a ≤ l.foldl max a := by
  induction l generalizing a with
  | nil => exact le_refl a
  | cons c t ih => exact le_trans (le_max_left a c) (ih (max a c))

theorem mem_le_foldl_max (l : List ℚ) (a v : ℚ) (h : v ∈ a :: l) : v ≤ l.foldl max a := by
  induction l generalizing a with
  | nil =>
      rcases List.mem_cons.mp h with h1 | h1
      · subst h1
        exact le_refl _
      · simp at h1
  | cons c t ih =>
      rcases List.mem_cons.mp h with h1 | h1
      · subst h1
        show v ≤ t.foldl max (max v c)
        exact le_trans (le_max_left v c) (init_le_foldl_max t (max v c))
      · rcases List.mem_cons.mp h1 with h2 | h2
        · subst h2
          show v ≤ t.foldl max (max a v)
          exact le_trans (le_max_right a v) (init_le_foldl_max t (max a v))
        · exact ih (max a c) (List.mem_cons_of_mem _ h2)

theorem writeChans_spec :
    ∀ (chans : List (ℕ × ℚ × ℚ × ℚ × ℚ)) (data : List (List ℚ)),
      List.Forall₂ (fun (ch : ℕ × ℚ × ℚ × ℚ × ℚ) raw => raw.length = ch.1 ∧ raw ≠ [])
        chans data →
      writeChans chans data = some
        (blockBytes (List.zipWith (fun (ch : ℕ × ℚ × ℚ × ℚ × ℚ) raw =>
            raw.map (fun v => digitalOf ch.2.2.2.1 ch.2.2.2.2 v)) chans data),
          blockWarn chans data) := by
  intro chans
  induction chans with
  | nil =>
      intro data h
      cases h
      rfl
  | cons ch cs ih =>
      intro data h
      rcases h with _ | ⟨⟨hlen, hne⟩, htail⟩
      rename_i raw data'
      obtain ⟨ns, pmin, pmax, cal, off⟩ := ch
      rcases raw with _ | ⟨r0, rtl⟩
      · exact absurd rfl hne
      unfold writeChans
      rw [if_pos hlen, ih data' htail]
      rw [List.zipWith_cons_cons, blockBytes_cons]
      unfold blockWarn
      rw [List.zipWith_cons_cons, List.any_cons, List.map_map]
      rfl

theorem blockWarn_of_out_of_range :
    ∀ (chans : List (ℕ × ℚ × ℚ × ℚ × ℚ)) (data : List (List ℚ)),
      (∃ p ∈ chans.zip data, ∃ v ∈ p.2, v < p.1.2.1 ∨ p.1.2.2.1 < v) →
      blockWarn chans data = true := by
  intro chans
  induction chans with
  | nil =>
      intro data h
      obtain ⟨p, hp, _⟩ := h
      simp at hp
  | cons ch cs ih =>
      intro data h
      cases data with
      | nil =>
          obtain ⟨p, hp, _⟩ := h
          simp at hp
      | cons raw data' =>
          obtain ⟨p, hp, v, hv, hout⟩ := h
          rw [List.zip_cons_cons, List.mem_cons] at hp
          unfold blockWarn
          rw [List.zipWith_cons_cons, List.any_cons]
          rcases hp with hp1 | hp2
          · subst hp1
            have hwc : chanWarn ch.2.1 ch.2.2.1 raw = true := by
              cases raw with
              | nil => cases hv
              | cons r0 rtl =>
                  show (decide (List.foldl min r0 rtl < ch.2.1)
                    || decide (List.foldl max r0 rtl > ch.2.2.1)) = true
                  rcases hout with h1 | h2
                  · have hm := foldl_min_le_mem rtl r0 v hv
                    have hdec : decide (rtl.foldl min r0 < ch.2.1) = true :=
                      decide_eq_true (lt_of_le_of_lt hm h1)
                    rw [hdec, Bool.true_or]
                  · have hm := mem_le_foldl_max rtl r0 v hv
                    have hdec : decide (rtl.foldl max r0 > ch.2.2.1) = true :=
                      decide_eq_true (lt_of_lt_of_le h2 hm)
                    rw [hdec, Bool.or_true]
            rw [hwc]
            rfl
          · have := ih data' ⟨p, hp2, v, hv, hout⟩
            unfold blockWarn at this
            rw [this, Bool.or_true]

/-! ## Finalization (`EDFWriter.close`) -/

theorem flatten_range_slices :
    ∀ (k : ℕ) (file : List ℕ) (p bsize : ℕ),
      ((List.range k).map (fun b => (file.drop (p + b * bsize)).take bsize)).flatten
        = (file.drop p).take (k * bsize) := by
  intro k
  induction k with
  | zero => intro file p bsize; simp
  | succ j ih =>
      intro file p bsize
      rw [List.range_succ, List.map_append, List.flatten_append, ih]
      simp only [List.map_cons, List.map_nil, List.flatten_cons, List.flatten_nil,
        List.append_nil]
      rw [Nat.succ_mul, List.take_add]
      congr 1
      rw [List.drop_drop]

theorem closeFile_spec (data_offset bsize n : ℕ) (file : List ℕ)
    (h244 : 244 ≤ data_offset)
    (hlen : file.length = data_offset + n * bsize) :
    closeFile data_offset bsize n file
      = file.take 236 ++ (strBytes (padtrim (natToStr n) 8) ++ file.drop 244) := by
  unfold closeFile
  rw [flatten_range_slices]
  have h1 : (file.drop data_offset).length = n * bsize := by simp [hlen]
  rw [List.take_of_length_le (le_of_eq h1)]
  have hsplit : file.drop data_offset = (file.drop 244).drop (data_offset - 244) := by
    rw [List.drop_drop, show 244 + (data_offset - 244) = data_offset from by omega]
  rw [hsplit, show data_offset - 236 - 8 = data_offset - 244 from by omega]
  simp only [List.append_assoc]
  rw [List.take_append_drop]

theorem strBytes_length (s : Str) : (strBytes s).length = s.length := by
  simp [strBytes]

/-! ## Claims -/

/-- C2: `deriveCalibration` (identical in `EDFWriter.writeHeader` and
`EDFReader.readHeader`) computes, per channel,
`scale = (physical_max - physical_min) / (digital_max - digital_min)` and
`offset = physical_min - scale * digital_min`; whenever
`digital_min < digital_max` and `physical_min < physical_max` the computed
scale is positive (so the fallback does not fire), and whenever the computed
scale is negative the channel is forced to `scale = 1`, `offset = 0`. -/
theorem C2_deriveCalibration (pmin pmax dmin dmax : ℚ) :
    (dmin < dmax → pmin < pmax →
      calibChan pmin pmax dmin dmax
        = ((pmax - pmin) / (dmax - dmin),
           pmin - ((pmax - pmin) / (dmax - dmin)) * dmin)
      ∧ 0 < (pmax - pmin) / (dmax - dmin))
    ∧ ((pmax - pmin) / (dmax - dmin) < 0 →
      calibChan pmin pmax dmin dmax = (1, 0)) := by
  constructor
  · intro hd hp
    have hpos : 0 < (pmax - pmin) / (dmax - dmin) :=
      div_pos (by linarith) (by linarith)
    refine ⟨?_, hpos⟩
    simp only [calibChan]
    rw [if_neg (not_lt.mpr (le_of_lt hpos))]
  · intro hneg
    simp only [calibChan]
    rw [if_pos hneg]

theorem C2_deriveCalibration_witness :
    (calibChan 0 100 0 200
        = ((100 - 0) / (200 - 0), 0 - ((100 - 0) / (200 - 0)) * 0)
      ∧ 0 < ((100 : ℚ) - 0) / (200 - 0))
    ∧ calibChan 0 100 10 5 = (1, 0) :=
  ⟨(C2_deriveCalibration 0 100 0 200).1 (by norm_num) (by norm_num),
   (C2_deriveCalibration 0 100 10 5).2 (by norm_num)⟩

/-- The fallback does not make every degenerate-range channel `(1, 0)`: with
`physical_min = physical_max = 5` over the valid digital range `[0, 1]` the
computed scale is `0`, the (strict) `scale < 0` guard does not fire, and the
stored calibration is `(0, 5)`. -/
theorem C2_counterexample :
    calibChan 5 5 0 1 = (0, 5) ∧ calibChan 5 5 0 1 ≠ (1, 0) := by
  have h : calibChan 5 5 0 1 = (0, 5) := by
    simp only [calibChan]
    rw [if_neg (by norm_num)]
    norm_num [Prod.ext_iff]
  refine ⟨h, ?_⟩
  rw [h]
  intro hc
  rw [Prod.ext_iff] at hc
  exact absurd hc.1 (by norm_num)

/-- C9: on channels whose prefiltering strings disagree
(`HP: 10 LP: 40` on channel 0 vs `HP: 20 LP: 30` on channel 1, last channel
excluded), header parsing stores the FIRST channel's values — highpass `10`
and lowpass `40` — and emits no warning (both flags `false`). The branch
that would store the maximum highpass / minimum lowpass and warn is
unreachable: its guard `all(matches)` is always true, every `\w+` regex
match being a non-empty string. -/
theorem C9_filter_first_channel_no_warning :
    filterSettings C9input
      = some (((10 : ℕ) : ℚ), some ((40 : ℕ) : ℚ), false, false) := rfl

/-- C10: `writeHeader` mutates the caller's structures: absent
`subject_id`/`recording_id`/`subtype` are filled in, `data_size` and
`data_offset` are inserted, and too-short `ch_names`/`transducers`/`units`
lists are replaced with defaults — so neither the caller's `meas_info` nor
its `chan_info` is left unchanged. -/
theorem C10_writeHeader_mutates (m : MeasInfo) (c : ChanInfo)
    (hsid : m.subject_id = none) (hrid : m.recording_id = none)
    (hsub : m.subtype = none)
    (hn : c.ch_names.length < m.nchan) (ht : c.transducers.length < m.nchan)
    (hu : c.units.length < m.nchan) :
    (writeHeader m c).1.subject_id = some []
    ∧ (writeHeader m c).1.recording_id = some []
    ∧ (writeHeader m c).1.subtype = some ("edf".toList)
    ∧ (writeHeader m c).1.data_size = some 2
    ∧ (writeHeader m c).1.data_offset = some (256 + 256 * m.nchan)
    ∧ (writeHeader m c).2.1.ch_names = (List.range m.nchan).map natToStr
    ∧ (writeHeader m c).2.1.transducers = List.replicate m.nchan []
    ∧ (writeHeader m c).2.1.units = List.replicate m.nchan []
    ∧ (writeHeader m c).1 ≠ m
    ∧ (writeHeader m c).2.1 ≠ c := by
  obtain ⟨sid, rid, sub, day, month, year, hour, minute, second, rl, nch, dsz, doff⟩ := m
  obtain ⟨cn, tr, un, pn, px, dn, dx, ns⟩ := c
  simp only [] at hsid hrid hsub hn ht hu
  subst hsid hrid hsub
  have hc : fillChan nch ⟨cn, tr, un, pn, px, dn, dx, ns⟩
      = ⟨(List.range nch).map natToStr, List.replicate nch [], List.replicate nch [],
        pn, px, dn, dx, ns⟩ := by
    simp only [fillChan]
    rw [if_pos hn]
    simp only []
    rw [if_pos ht]
    simp only []
    rw [if_pos hu]
  refine ⟨rfl, rfl, rfl, rfl, ?_, ?_, ?_, ?_, ?_, ?_⟩
  · show some (writeHeaderBytes
        (fillMeas ⟨none, none, none, day, month, year, hour, minute, second,
          rl, nch, dsz, doff⟩)
        (fillChan nch ⟨cn, tr, un, pn, px, dn, dx, ns⟩)).length
      = some (256 + 256 * nch)
    rw [whb_length]
    exact rfl
  · show (fillChan nch ⟨cn, tr, un, pn, px, dn, dx, ns⟩).ch_names = _
    rw [hc]
  · show (fillChan nch ⟨cn, tr, un, pn, px, dn, dx, ns⟩).transducers = _
    rw [hc]
  · show (fillChan nch ⟨cn, tr, un, pn, px, dn, dx, ns⟩).units = _
    rw [hc]
  · intro heq
    have h2 := congrArg MeasInfo.subject_id heq
    have h3 : some ([] : Str) = (none : Option Str) := h2
    exact Option.noConfusion h3
  · intro heq
    have h2 : fillChan nch ⟨cn, tr, un, pn, px, dn, dx, ns⟩
        = ⟨cn, tr, un, pn, px, dn, dx, ns⟩ := heq
    rw [hc] at h2
    have h3 := congrArg (fun x : ChanInfo => x.ch_names.length) h2
    simp only [List.length_map, List.length_range] at h3
    omega

theorem C10_writeHeader_mutates_witness :
    (writeHeader C10m C10c).1 ≠ C10m ∧ (writeHeader C10m C10c).2.1 ≠ C10c := by
  have h := C10_writeHeader_mutates C10m C10c rfl rfl rfl
    (by decide) (by decide) (by decide)
  exact ⟨h.2.2.2.2.2.2.2.2.1, h.2.2.2.2.2.2.2.2.2⟩

/-- C7: `close` rewrites the file so that only the 8-byte record-count field
at offsets 236..243 changes: bytes 0..235 are preserved verbatim, the field
now holds the final record count (space-padded decimal) in place of the `-1`
sentinel, and every byte from offset 244 up to `data_offset` and all record
payloads are preserved verbatim, the total length unchanged. -/
theorem C7_close_frame (data_offset bsize n : ℕ) (file : List ℕ)
    (h244 : 244 ≤ data_offset) (hlen : file.length = data_offset + n * bsize) :
    (closeFile data_offset bsize n file).take 236 = file.take 236
    ∧ slice (closeFile data_offset bsize n file) 236 8
        = strBytes (padtrim (natToStr n) 8)
    ∧ (closeFile data_offset bsize n file).drop 244 = file.drop 244
    ∧ (closeFile data_offset bsize n file).length = file.length := by
  have hspec := closeFile_spec data_offset bsize n file h244 hlen
  have ht236 : (file.take 236).length = 236 := by
    rw [List.length_take]
    omega
  have hsb : (strBytes (padtrim (natToStr n) 8)).length = 8 := by
    rw [strBytes_length, padtrim_length]
  refine ⟨?_, ?_, ?_, ?_⟩
  · rw [hspec]
    exact List.take_left' ht236
  · rw [hspec]
    unfold slice
    rw [List.drop_left' ht236]
    exact List.take_left' hsb
  · have h1 : closeFile data_offset bsize n file
        = (file.take 236 ++ strBytes (padtrim (natToStr n) 8)) ++ file.drop 244 := by
      rw [hspec, List.append_assoc]
    have h2 : (file.take 236 ++ strBytes (padtrim (natToStr n) 8)).length = 244 := by
      rw [List.length_append, ht236, hsb]
    rw [h1]
    exact List.drop_left' h2
  · rw [hspec]
    simp only [List.length_append, List.length_take, List.length_drop, hsb]
    omega

theorem C7_close_frame_witness :
    (closeFile 256 2 1 (List.replicate 258 7)).take 236
        = (List.replicate 258 7).take 236
    ∧ slice (closeFile 256 2 1 (List.replicate 258 7)) 236 8
        = strBytes (padtrim (natToStr 1) 8)
    ∧ (closeFile 256 2 1 (List.replicate 258 7)).drop 244
        = (List.replicate 258 7).drop 244
    ∧ (closeFile 256 2 1 (List.replicate 258 7)).length
        = (List.replicate 258 7).length :=
  C7_close_frame 256 2 1 (List.replicate 258 7) (by norm_num)
    (by simp only [List.length_replicate])

/-- C8: a `writeBlock` whose data contains a value outside the declared
physical range still completes: the digital values are produced by the
linear transform and truncation with no clipping, the encoded record is
appended, the record counter increments by exactly one, and the
`RangeWarning` flag is raised. -/
theorem C8_writeBlock_range_warning (s : WSession) (data : List (List ℚ))
    (hshape : List.Forall₂
        (fun (ch : ℕ × ℚ × ℚ × ℚ × ℚ) raw => raw.length = ch.1 ∧ raw ≠ [])
        (zip5 s.n_samps s.physical_min s.physical_max s.calibrate s.offset) data)
    (hout : ∃ p ∈ (zip5 s.n_samps s.physical_min s.physical_max s.calibrate
        s.offset).zip data, ∃ v ∈ p.2, v < p.1.2.1 ∨ p.1.2.2.1 < v) :
    writeBlockS s data
      = some ({ s with
          fileBytes := s.fileBytes ++ blockBytes (List.zipWith
            (fun (ch : ℕ × ℚ × ℚ × ℚ × ℚ) raw =>
              raw.map (fun v => digitalOf ch.2.2.2.1 ch.2.2.2.2 v))
            (zip5 s.n_samps s.physical_min s.physical_max s.calibrate s.offset)
            data),
          n_records := s.n_records + 1 }, true) := by
  unfold writeBlockS
  rw [writeChans_spec _ _ hshape]
  simp only []
  rw [blockWarn_of_out_of_range _ _ hout]

theorem C8_writeBlock_range_warning_witness :
    writeBlockS C8s [[(15 : ℚ)]]
      = some ({ C8s with
          fileBytes := C8s.fileBytes ++ blockBytes (List.zipWith
            (fun (ch : ℕ × ℚ × ℚ × ℚ × ℚ) raw =>
              raw.map (fun v => digitalOf ch.2.2.2.1 ch.2.2.2.2 v))
            (zip5 C8s.n_samps C8s.physical_min C8s.physical_max C8s.calibrate
              C8s.offset)
            [[(15 : ℚ)]]),
          n_records := C8s.n_records + 1 }, true) :=
  C8_writeBlock_range_warning C8s [[(15 : ℚ)]]
    (List.Forall₂.cons ⟨rfl, List.cons_ne_nil _ _⟩ List.Forall₂.nil)
    ⟨((1, 0, 10, 1, 0), [(15 : ℚ)]), List.mem_singleton.mpr rfl,
      15, List.mem_singleton.mpr rfl, Or.inr (by norm_num)⟩

/-- C6: whenever the stored record-count field holds the sentinel `-1`, the
parsed header carries `n_records = (fileSize - data_offset) / data_size /
sum(n_samps)` as an exact quotient, with no implicit flooring. -/
theorem C6_sentinel_recompute (ext : Str) (fileSize : ℕ) (s : Str)
    (pm : PMeasInfo) (pc : PChanInfo)
    (hparse : readHeaderBytes ext fileSize s = some (pm, pc))
    (hsent : parseIntStr (slice s 236 8) = some (-1)) :
    pm.n_records
      = ((fileSize : ℚ) - ((pm.data_offset : ℤ) : ℚ)) / ((pm.data_size : ℕ) : ℚ)
        / pc.n_samps.sum := by
  unfold readHeaderBytes at hparse
  split at hparse
  case _ day month year hour minute second header_nbytes nRecRaw recordLengthRaw
      nchanZ h1 h2 h3 h4 h5 h6 =>
    rw [h4] at hsent
    injection hsent with hv
    subst hv
    simp only [] at hparse
    repeat' split at hparse
    all_goals try exact Option.noConfusion hparse
    all_goals injection hparse with hpair
    all_goals injection hpair with hpm hpc
    all_goals subst hpm
    all_goals subst hpc
    all_goals try rfl
    all_goals exfalso
    all_goals first
      | omega
      | simp_all
  all_goals exact Option.noConfusion hparse

theorem C6_sentinel_recompute_witness :
    C6pm.n_records
      = (((516 : ℕ) : ℚ) - ((C6pm.data_offset : ℤ) : ℚ)) / ((C6pm.data_size : ℕ) : ℚ)
        / C6pc.n_samps.sum :=
  C6_sentinel_recompute ("edf".toList) 516 C6bytes C6pm C6pc rfl rfl

/-- The serialized header never stores `subtype`: `C3m` declares subtype
`bdf`, yet parsing its serialization back with filename extension `edf`
yields subtype `edf` — a field changed by the round trip that is neither a
defaulted-when-absent text field nor a width truncation. -/
theorem C3_counterexample :
    (readHeaderBytes ("edf".toList) 512 (writeHeaderBytes C3m C3c)).map
        (fun r => r.1.subtype) = some ("edf".toList)
    ∧ C3m.subtype = some ("bdf".toList) := ⟨rfl, rfl⟩

theorem C3_roundtrip_witness :
    readHeaderBytes ("edf".toList) (256 + 256 * C3wm.nchan)
        (writeHeaderBytes C3wm C3wc)
      = some
        (⟨['0'], C3wm.subject_id.getD [], C3wm.recording_id.getD [],
          C3wm.day, C3wm.month, C3wm.year, C3wm.hour, C3wm.minute, C3wm.second,
          ((256 + 256 * C3wm.nchan : ℕ) : ℤ), "edf".toList,
          (if "edf".toList = "24BIT".toList ∨ "edf".toList = "bdf".toList
            then 3 else 2),
          0, ((C3wm.record_length : ℤ) : ℚ), C3wm.nchan, 0, none⟩,
         ⟨C3wc.ch_names, C3wc.transducers, C3wc.units,
          C3wc.physical_min.map (fun z => ((z : ℤ) : ℚ)),
          C3wc.physical_max.map (fun z => ((z : ℤ) : ℚ)),
          C3wc.digital_min.map (fun z => ((z : ℤ) : ℚ)),
          C3wc.digital_max.map (fun z => ((z : ℤ) : ℚ)),
          C3wc.n_samps.map (fun n => ((n : ℕ) : ℚ))⟩) :=
  readHeader_writeHeader C3wm C3wc ("edf".toList)
    (by decide) (by decide) (by decide) (by decide)
    (by decide) (by decide) (by decide) (by decide) (by decide) (by decide)
    (by decide) (by decide) (by decide) (by decide)
    (by decide) (by decide) (by decide) (by decide) (by decide) (by decide)
    (by decide) (by decide) (by decide) (by decide) (by decide) (by decide)
    (by decide) (by decide) (by decide) (by decide)

/-- C1: even on the writer side alone the claimed half-step round-trip bound
fails. With the derived calibration `(1, 0)` (physical and digital range
both `[0, 100]`), `writeBlock` stores the in-range value `5.9` as digital
`5` — truncation toward zero, not rounding to nearest — so the value the
record holds reconstructs (by the intended `raw * calibrate + offset`) to
`5.0`, an error of `0.9 > scale/2 = 1/2`. (The read-back side of the round
trip never executes in the program at all: `readHeader` stores float
`n_samps`, on which every `readBlock` call raises.) -/
theorem C1_truncation_exceeds_half_step :
    calibChan 0 100 0 100 = (1, 0)
    ∧ writeChans [(1, 0, 100, 1, 0)] [[59/10]] = some (blockBytes [[5]], false)
    ∧ ¬ (|((1 : ℚ) * ((toI16 5 : ℤ) : ℚ) + 0) - 59/10| ≤ (1 : ℚ) / 2) := by
  have hd59 : digitalOf 1 0 (59/10) = 5 := by
    simp only [digitalOf, ratTrunc]
    rw [if_pos (by norm_num)]
    norm_num
  refine ⟨?_, ?_, ?_⟩
  · simp only [calibChan]
    rw [if_neg (by norm_num)]
    norm_num [Prod.ext_iff]
  · have hs := writeChans_spec [(1, 0, 100, 1, 0)] [[59/10]]
      (List.Forall₂.cons ⟨rfl, List.cons_ne_nil _ _⟩ List.Forall₂.nil)
    rw [hs]
    have hzip : List.zipWith (fun (ch : ℕ × ℚ × ℚ × ℚ × ℚ) raw =>
        raw.map (fun v => digitalOf ch.2.2.2.1 ch.2.2.2.2 v))
        [(1, 0, 100, 1, 0)] [[59/10]] = [[digitalOf 1 0 (59/10)]] := rfl
    have hw : blockWarn [(1, 0, 100, 1, 0)] [[(59 : ℚ)/10]] = false := by
      show ((decide ((59 : ℚ)/10 < 0) || decide ((59 : ℚ)/10 > 100)) || false) = false
      rw [decide_eq_false (by norm_num : ¬ ((59 : ℚ)/10 < 0)),
        decide_eq_false (by norm_num : ¬ ((59 : ℚ)/10 > 100))]
      rfl
    rw [hzip, hd59, hw]
  · rw [show toI16 5 = 5 from by decide]
    have h5 : (1 : ℚ) * ((5 : ℤ) : ℚ) + 0 - 59/10 = -(9/10) := by norm_num
    rw [h5, abs_neg, abs_of_pos (by norm_num : (0 : ℚ) < 9/10)]
    norm_num

end PyEDF
